import Mathlib

/-!
Verification development for the message-bridge subsystem of the
mcp-in-browser repository: the reconnecting WebSocket `BridgeClient`
(src/bridge/client.ts), the concurrency-bounded `TaskQueue`
(the task scheduler source file), and the relay broker (bridge.ts).

The embedding is shallow: every method of the source is translated to a
pure Lean function from an explicit state to a new state plus a list of
observable effects (socket sends, promise settlements, timer operations,
log lines).  The single-threaded run-to-completion semantics of the
source lets each callback be modelled as one atomic step; an inductive
`Reachable` predicate closes the step function over arbitrary event
traces.  Outcomes of fallible external actions (the WebSocket
constructor, `ws.send`) are supplied as Boolean oracles.

Request ids: the source renders ids as strings (a prefix plus a base-36
rendering of a timestamp/random pair, `generateId` in the id-generator
module); the rendering is injective and the spec makes uniqueness of ids
the originating client's responsibility, so the model identifies an id
with the fresh counter value that generates it (a `Nat`).
-/

namespace McpBridge

/-- Opaque JSON payload carrier; the bridge never inspects payloads. -/
inductive Json
  | null
  | jstr (s : String)
  | jnum (n : Int)
  | jbool (b : Bool)
  deriving DecidableEq

/-- The `client` field of a hello envelope: 'extension' | 'mcp-server'. -/
inductive ClientType
  | extension
  | mcpServer
  deriving DecidableEq

/-- The `type` field of `BridgeMessage`: 'hello' | 'tool_call' | 'response' | 'error'. -/
inductive MsgType
  | hello
  | tool_call
  | response
  | error
  deriving DecidableEq

/-- Wire envelope, mirroring the `BridgeMessage` interface of client.ts. -/
structure BridgeMessage where
  type : MsgType
  id : Option Nat
  tool : Option String
  params : Option (List (String × Json))
  data : Option Json
  error : Option String
  client : Option ClientType
  status : Option String
  deriving DecidableEq

/-- Envelope with the given type and every optional field absent. -/
def mkMsg (t : MsgType) : BridgeMessage :=
  ⟨t, none, none, none, none, none, none, none⟩

/-- WebSocket readyState; `opened` models `WebSocket.OPEN`. -/
inductive WsReady
  | connecting
  | opened
  | closing
  | closed
  deriving DecidableEq

/-- Error codes of the `AppError` class used by the bridge client. -/
inductive ErrorCode
  | BRIDGE_NOT_CONNECTED
  | BRIDGE_CONNECTION_FAILED
  | REQUEST_TIMEOUT
  deriving DecidableEq

/-- Observable effects of one synchronous step of the client. -/
inductive Eff
  | send (m : BridgeMessage)
  | resolveReq (i : Nat) (d : Json)
  | rejectReq (i : Nat) (msg : String)
  | cancelTimeout (i : Nat)
  | setTimeoutFor (i : Nat) (ms : Nat)
  | closeSocket
  | connAttempt
  | connectedCb
  | disconnectedCb
  | handlerCall (m : BridgeMessage)
  | thrown (c : ErrorCode) (msg : String)
  | logLine (s : String)
  deriving DecidableEq

/-- The `bridge` section of `AppConfig` (core/config.ts). -/
structure BridgeConfig where
  reconnectInterval : Nat
  maxReconnectAttempts : Nat
  messageQueueLimit : Nat
  deriving DecidableEq

/-- Default configuration embedded in client.ts. -/
def defaultBridgeConfig : BridgeConfig :=
  ⟨2000, 10, 100⟩

/-- Mutable fields of the `BridgeClient` class.  The outbound queue holds
serialized envelopes in the source; serialization is a bijection on the
envelopes the client itself enqueues, so entries are stored unserialized.
The pending-request map is keyed by id; the continuations live outside
the model (settlements are emitted as effects), so the table is the list
of pending ids in insertion order.  `nextReqId` models the freshness of
`generateId`. -/
structure ClientState where
  ws : Option WsReady
  reconnectTimer : Bool
  isConnected : Bool
  reconnectAttempts : Nat
  messageQueue : List BridgeMessage
  pendingRequests : List Nat
  nextReqId : Nat
  deriving DecidableEq

/-- Freshly constructed client: no socket, no timer, empty queues. -/
def initState : ClientState :=
  ⟨none, false, false, 0, [], [], 0⟩

/-- The private `isOpen` helper: a socket exists and its readyState is OPEN. -/
def wsIsOpen : Option WsReady → Bool
  | none => false
  | some r => r == WsReady.opened

/-- The private `safeSend` method.  `sendOk` is the oracle for whether
`ws.send` itself throws (the try/catch branch). -/
def safeSend (sendOk : Bool) (s : ClientState) (m : BridgeMessage) : Bool × List Eff :=
  if s.ws.isNone || !s.isConnected then (false, [])
  else if !(wsIsOpen s.ws) then (false, [])
  else if sendOk then (true, [Eff.send m])
  else (false, [Eff.logLine "Failed to send message"])

/-- The `sendMessage` method: try `safeSend`; on failure enqueue, evicting
the oldest entry first when the queue is at or beyond the limit. -/
def sendMessage (sendOk : Bool) (cfg : BridgeConfig) (s : ClientState) (m : BridgeMessage) :
    ClientState × List Eff :=
  let r := safeSend sendOk s m
  if r.1 then (s, r.2)
  else
    let q :=
      if s.messageQueue.length ≥ cfg.messageQueueLimit then s.messageQueue.tail
      else s.messageQueue
    ({ s with messageQueue := q ++ [m] }, r.2)

/-- Loop body of `flushMessageQueue`: repeatedly shift the head and
`safeSend` it; on a failed send the entry is unshifted back and the loop
breaks.  `oracle k` is the outcome of the k-th `ws.send` of the step.
The catch branch for a queued entry that fails to parse never fires:
every entry was serialized by `sendMessage` itself. -/
def flushGo (s : ClientState) (oracle : Nat → Bool) :
    Nat → List BridgeMessage → List BridgeMessage × List Eff
  | _, [] => ([], [])
  | k, m :: rest =>
    let r := safeSend (oracle k) s m
    if r.1 then
      let r2 := flushGo s oracle (k + 1) rest
      (r2.1, r.2 ++ r2.2)
    else (m :: rest, r.2)

/-- The `flushMessageQueue` method; `k0` is the index of the first send
oracle to consume. -/
def flushMessageQueue (oracle : Nat → Bool) (k0 : Nat) (s : ClientState) :
    ClientState × List Eff :=
  let r := flushGo s oracle k0 s.messageQueue
  ({ s with messageQueue := r.1 }, r.2)

/-- Hello envelope sent on open, carrying the client type. -/
def helloMsg (ct : ClientType) : BridgeMessage :=
  { mkMsg MsgType.hello with client := some ct }

/-- The `handleOpen` handler: mark connected, reset the attempt counter,
send hello, flush the queue, clear the reconnect timer, fire the
onConnected callback.  Oracle index 0 is the hello send; the flush
consumes indices from 1. -/
def handleOpen (oracle : Nat → Bool) (cfg : BridgeConfig) (ct : ClientType) (s : ClientState) :
    ClientState × List Eff :=
  let s1 := { s with isConnected := true, reconnectAttempts := 0 }
  let r2 := sendMessage (oracle 0) cfg s1 (helloMsg ct)
  let r3 := flushMessageQueue oracle 1 r2.1
  let s4 := { r3.1 with reconnectTimer := false }
  (s4, r2.2 ++ r3.2 ++ [Eff.connectedCb])

/-- Response branch of `handleMessage` for an envelope with an id: if the
id is pending, cancel its timeout, delete it, and settle (reject when the
envelope carries an error, resolve with `data ?? null` otherwise); if the
id is absent from the table the envelope is dropped. -/
def handleRespId (s : ClientState) (m : BridgeMessage) (i : Nat) : ClientState × List Eff :=
  if s.pendingRequests.contains i then
    let s2 := { s with pendingRequests := s.pendingRequests.erase i }
    match m.error with
    | some e => (s2, [Eff.cancelTimeout i, Eff.rejectReq i e])
    | none => (s2, [Eff.cancelTimeout i, Eff.resolveReq i (m.data.getD Json.null)])
  else (s, [])

/-- The `handleMessage` handler.  The whole body is wrapped in try/catch
in the source, so it never throws; it is a total function here. -/
def handleMessage (s : ClientState) (m : BridgeMessage) : ClientState × List Eff :=
  if m.type = MsgType.hello ∧ m.status = some "connected" then
    (s, [Eff.logLine "Bridge acknowledged connection"])
  else if h : m.type = MsgType.response ∧ m.id.isSome then
    handleRespId s m (m.id.get h.2)
  else if m.type = MsgType.error then
    (s, [Eff.logLine "Received error from bridge"])
  else
    (s, [Eff.handlerCall m])

/-- The `handleError` handler: log and mark disconnected. -/
def handleErrorEv (s : ClientState) : ClientState × List Eff :=
  ({ s with isConnected := false }, [Eff.logLine "WebSocket error"])

/-- The `scheduleReconnect` method.  When the attempt counter has reached
the maximum it only logs and returns: it does not touch an existing
timer.  Otherwise it starts the interval timer if none is running. -/
def scheduleReconnect (cfg : BridgeConfig) (s : ClientState) : ClientState × List Eff :=
  if s.reconnectAttempts ≥ cfg.maxReconnectAttempts then
    (s, [Eff.logLine "Max reconnect attempts reached, giving up"])
  else if !s.reconnectTimer then
    ({ s with reconnectTimer := true }, [])
  else (s, [])

/-- The `handleClose` handler: mark disconnected, drop the socket, fire
the onDisconnected callback, schedule reconnection. -/
def handleClose (cfg : BridgeConfig) (s : ClientState) : ClientState × List Eff :=
  let s1 := { s with isConnected := false, ws := none }
  let r := scheduleReconnect cfg s1
  (r.1, Eff.disconnectedCb :: r.2)

/-- The `connect` method: a no-op when the socket is already OPEN;
otherwise construct a WebSocket (readyState CONNECTING) and attach the
handlers.  `ctorOk` is the oracle for the constructor throwing, whose
catch branch calls `scheduleReconnect`. -/
def connect (ctorOk : Bool) (cfg : BridgeConfig) (s : ClientState) : ClientState × List Eff :=
  if wsIsOpen s.ws then (s, [])
  else if ctorOk then
    ({ s with ws := some WsReady.connecting }, [Eff.connAttempt])
  else
    let r := scheduleReconnect cfg s
    (r.1, Eff.connAttempt :: r.2)

/-- One tick of the `setInterval` callback registered by
`scheduleReconnect`.  A cleared timer never ticks, hence the guard.  When
disconnected the callback increments the attempt counter and calls
`connect` with no bound check; when connected it clears the timer. -/
def reconnectTick (ctorOk : Bool) (cfg : BridgeConfig) (s : ClientState) : ClientState × List Eff :=
  if !s.reconnectTimer then (s, [])
  else if !s.isConnected then
    let s1 := { s with reconnectAttempts := s.reconnectAttempts + 1 }
    let r := connect ctorOk cfg s1
    (r.1, Eff.logLine "Reconnecting" :: r.2)
  else ({ s with reconnectTimer := false }, [])

/-- The `disconnect` method: stop the reconnect timer, reset the attempt
counter, mark disconnected, close and drop the socket.  The pending
table and the outbound queue are not touched, exactly as in the source. -/
def disconnect (s : ClientState) : ClientState × List Eff :=
  let effs := if s.ws.isSome then [Eff.closeSocket] else []
  ({ s with reconnectTimer := false, isConnected := false,
            reconnectAttempts := 0, ws := none },
   effs ++ [Eff.logLine "Disconnected from bridge"])

/-- Call envelope built by `sendRequest`. -/
def toolCallMsg (i : Nat) (tool : String) (ps : Option (List (String × Json))) : BridgeMessage :=
  { mkMsg MsgType.tool_call with id := some i, tool := some tool, params := ps }

/-- The `sendRequest` method.  It throws `AppError(BRIDGE_NOT_CONNECTED)`
synchronously when `isConnected` is false; otherwise it registers a fresh
pending request with its timeout and hands the call envelope to
`sendMessage`.  On success it returns the new state, the fresh id and
the effects. -/
def sendRequest (sendOk : Bool) (cfg : BridgeConfig) (s : ClientState)
    (tool : String) (ps : Option (List (String × Json))) (timeoutMs : Nat) :
    Except (ErrorCode × String) (ClientState × Nat × List Eff) :=
  if !s.isConnected then
    Except.error (ErrorCode.BRIDGE_NOT_CONNECTED, "Bridge not connected")
  else
    let i := s.nextReqId
    let s1 := { s with nextReqId := s.nextReqId + 1,
                       pendingRequests := s.pendingRequests ++ [i] }
    let r := sendMessage sendOk cfg s1 (toolCallMsg i tool ps)
    Except.ok (r.1, i, Eff.setTimeoutFor i timeoutMs :: r.2)

/-- Firing of the timeout registered by `sendRequest`: delete the id and
reject with a timeout error.  Every path that removes an id from the
table first calls `clearTimeout`, so a timeout can only fire while its id
is still pending; a fire for a non-pending id is a cleared timer and does
nothing. -/
def timeoutFire (s : ClientState) (i : Nat) : ClientState × List Eff :=
  if s.pendingRequests.contains i then
    ({ s with pendingRequests := s.pendingRequests.erase i },
     [Eff.rejectReq i "Request timeout"])
  else (s, [])

/-- The `clearQueue` method: drop the outbound queue, then cancel the
timeout of every pending request and reject it with a connection-lost
error, leaving the table empty. -/
def clearQueue (s : ClientState) : ClientState × List Eff :=
  ({ s with messageQueue := [], pendingRequests := [] },
   s.pendingRequests.flatMap (fun i => [Eff.cancelTimeout i, Eff.rejectReq i "Connection lost"]))

/-- External stimuli driving the client, each carrying the oracle data of
the fallible actions its handler performs. -/
inductive Event
  | evConnect (ctorOk : Bool)
  | evOpen (oracle : Nat → Bool)
  | evRecv (m : BridgeMessage)
  | evSocketError
  | evClose
  | evTick (ctorOk : Bool)
  | evTimeout (i : Nat)
  | evSendMessage (sendOk : Bool) (m : BridgeMessage)
  | evSendRequest (sendOk : Bool) (tool : String)
      (ps : Option (List (String × Json))) (timeoutMs : Nat)
  | evDisconnect
  | evClearQueue

/-- One atomic run-to-completion step of the client.  Socket events
(`open`, `close`) require a socket to exist; a synchronous throw of
`sendRequest` is recorded as a `thrown` effect with the state unchanged. -/
def step (cfg : BridgeConfig) (ct : ClientType) (e : Event) (s : ClientState) :
    ClientState × List Eff :=
  match e with
  | .evConnect ok => connect ok cfg s
  | .evOpen oracle =>
      if s.ws.isSome then handleOpen oracle cfg ct { s with ws := some WsReady.opened }
      else (s, [])
  | .evRecv m => handleMessage s m
  | .evSocketError => handleErrorEv s
  | .evClose => if s.ws.isSome then handleClose cfg s else (s, [])
  | .evTick ok => reconnectTick ok cfg s
  | .evTimeout i => timeoutFire s i
  | .evSendMessage ok m => sendMessage ok cfg s m
  | .evSendRequest ok tool ps t =>
      match sendRequest ok cfg s tool ps t with
      | .ok r => (r.1, r.2.2)
      | .error ec => (s, [Eff.thrown ec.1 ec.2])
  | .evDisconnect => disconnect s
  | .evClearQueue => clearQueue s

/-- Run a trace of events, concatenating effects. -/
def runTrace (cfg : BridgeConfig) (ct : ClientType) :
    List Event → ClientState → ClientState × List Eff
  | [], s => (s, [])
  | e :: es, s =>
    let r := step cfg ct e s
    let r2 := runTrace cfg ct es r.1
    (r2.1, r.2 ++ r2.2)

/-- States reachable from a freshly constructed client. -/
inductive Reachable (cfg : BridgeConfig) (ct : ClientType) : ClientState → Prop
  | init : Reachable cfg ct initState
  | next (e : Event) {s : ClientState} :
      Reachable cfg ct s → Reachable cfg ct (step cfg ct e s).1

/-- Messages actually transmitted among a list of effects, in order. -/
def sentOf (effs : List Eff) : List BridgeMessage :=
  effs.filterMap (fun e => match e with | Eff.send m => some m | _ => none)

/-- Whether an effect settles (resolves or rejects) the request `i`. -/
def settlesReq (i : Nat) : Eff → Bool
  | Eff.resolveReq j _ => j == i
  | Eff.rejectReq j _ => j == i
  | _ => false

/-- Number of settlement effects for request `i` in a list of effects. -/
def settleCount (i : Nat) (effs : List Eff) : Nat :=
  (effs.filter (settlesReq i)).length

/-- Events that settle the pending request `i`: a response envelope
carrying id `i`, the firing of the timeout of `i`, or `clearQueue`. -/
def isSettlerEvent (i : Nat) : Event → Bool
  | Event.evRecv m => m.type == MsgType.response && m.id == some i
  | Event.evTimeout j => j == i
  | Event.evClearQueue => true
  | _ => false

/-- Pending-table well-formedness: ids are distinct and below the id
counter.  This holds in every reachable state and is what makes a
pending request impossible to settle twice. -/
def ClientInv (s : ClientState) : Prop :=
  s.pendingRequests.Nodup ∧ ∀ i ∈ s.pendingRequests, i < s.nextReqId

end McpBridge

namespace Sched

/-- A queued task of the `TaskQueue` (id, optional tab, priority, enqueue
time).  The thunk and its continuations live outside the model. -/
structure QueuedTask where
  id : Nat
  tabId : Option Nat
  priority : Int
  enqueuedAt : Int
  deriving DecidableEq

/-- The `concurrency` section of `AppConfig`. -/
structure ConcurrencyConfig where
  maxPerTab : Nat
  maxGlobal : Nat
  deriving DecidableEq

/-- Read a per-tab counter: `this.perTabCount.get(t) ?? 0`. -/
def mapCount (m : List (Nat × Nat)) (t : Nat) : Nat :=
  (m.lookup t).getD 0

/-- Map.set on the association list: replace in place, or append. -/
def setTab (m : List (Nat × Nat)) (t c : Nat) : List (Nat × Nat) :=
  if (m.lookup t).isSome then m.map (fun p => if p.1 = t then (t, c) else p)
  else m ++ [(t, c)]

/-- Map.delete on the association list. -/
def delTab (m : List (Nat × Nat)) (t : Nat) : List (Nat × Nat) :=
  m.filter (fun p => p.1 ≠ t)

/-- The private `canRun` method: global cap first, then the per-tab cap
for tasks that declare a tab; tabless tasks see only the global cap. -/
def canRun (cfg : ConcurrencyConfig) (running : List QueuedTask)
    (perTab : List (Nat × Nat)) (task : QueuedTask) : Bool :=
  if running.length ≥ cfg.maxGlobal then false
  else
    match task.tabId with
    | some t => if mapCount perTab t ≥ cfg.maxPerTab then false else true
    | none => true

/-- Increment of the per-tab counter on admission. -/
def bumpTab (perTab : List (Nat × Nat)) : Option Nat → List (Nat × Nat)
  | some t => setTab perTab t (mapCount perTab t + 1)
  | none => perTab

/-- Decrement of the per-tab counter on settlement: read with `?? 1`,
delete the key at 1 or below, otherwise store the predecessor. -/
def dropTab (perTab : List (Nat × Nat)) : Option Nat → List (Nat × Nat)
  | some t =>
    let c := (perTab.lookup t).getD 1
    if c ≤ 1 then delTab perTab t else setTab perTab t (c - 1)
  | none => perTab

/-- The `process` loop: admit from the head of the queue while the head
passes `canRun`; stop at the first ineligible head.  Returns the
remaining queue, the running set, the per-tab counters and the list of
admitted tasks in admission order. -/
def processGo (cfg : ConcurrencyConfig) :
    List QueuedTask → List QueuedTask → List (Nat × Nat) →
    List QueuedTask × List QueuedTask × List (Nat × Nat) × List QueuedTask
  | [], running, perTab => ([], running, perTab, [])
  | t :: rest, running, perTab =>
    if canRun cfg running perTab t then
      let r := processGo cfg rest (running ++ [t]) (bumpTab perTab t.tabId)
      (r.1, r.2.1, r.2.2.1, t :: r.2.2.2)
    else (t :: rest, running, perTab, [])

/-- Mutable fields of the `TaskQueue` class.  The source holds running
task ids in a Set and keeps each task object alive in its `executeTask`
frame; the model keeps the running tasks themselves.  `nextTaskId`
models the freshness of the generated task ids. -/
structure TaskState where
  queue : List QueuedTask
  running : List QueuedTask
  perTabCount : List (Nat × Nat)
  nextTaskId : Nat
  deriving DecidableEq

/-- The `process` method acting on the state. -/
def process (cfg : ConcurrencyConfig) (st : TaskState) : TaskState :=
  let r := processGo cfg st.queue st.running st.perTabCount
  { st with queue := r.1, running := r.2.1, perTabCount := r.2.2.1 }

/-- Strict before relation of the sort comparator: the comparator
returns `b.priority - a.priority` when priorities differ (negative means
`a` first) and `a.enqueuedAt - b.enqueuedAt` otherwise. -/
def taskBefore (a b : QueuedTask) : Bool :=
  if a.priority ≠ b.priority then decide (b.priority < a.priority)
  else decide (a.enqueuedAt < b.enqueuedAt)

/-- Stable insertion of a task that precedes the list elements in
submission order: it passes an element only when that element is
strictly before it under the comparator. -/
def insertTask (x : QueuedTask) : List QueuedTask → List QueuedTask
  | [] => [x]
  | y :: ys => if taskBefore y x then y :: insertTask x ys else x :: y :: ys

/-- The `sortQueue` method: ES2019 Array.sort is stable, modelled by a
stable insertion sort under the source comparator. -/
def sortQueue (q : List QueuedTask) : List QueuedTask :=
  q.foldr insertTask []

/-- The `enqueue` method: push the fresh task, sort, process. -/
def enqueueTask (cfg : ConcurrencyConfig) (st : TaskState)
    (tab : Option Nat) (prio : Int) (now : Int) : TaskState :=
  let task : QueuedTask := ⟨st.nextTaskId, tab, prio, now⟩
  let st1 := { st with queue := sortQueue (st.queue ++ [task]),
                       nextTaskId := st.nextTaskId + 1 }
  process cfg st1

/-- The `finally` block of `executeTask` when the running task with id
`i` settles: remove it from the running set, decrement its per-tab
counter, process the queue again.  A settlement event for an id that is
not running cannot arise and does nothing. -/
def settleTask (cfg : ConcurrencyConfig) (st : TaskState) (i : Nat) : TaskState :=
  match st.running.find? (fun u => u.id = i) with
  | some task =>
    let st1 : TaskState :=
      { st with running := st.running.eraseP (fun u => u.id = i),
                perTabCount := dropTab st.perTabCount task.tabId }
    process cfg st1
  | none => st

/-- External stimuli of the scheduler: a submission (`enqueue`) and the
asynchronous settlement of a running task. -/
inductive TEvent
  | tEnqueue (tab : Option Nat) (prio : Int) (now : Int)
  | tSettle (i : Nat)

/-- One atomic step of the scheduler. -/
def stepT (cfg : ConcurrencyConfig) (e : TEvent) (st : TaskState) : TaskState :=
  match e with
  | .tEnqueue tab p n => enqueueTask cfg st tab p n
  | .tSettle i => settleTask cfg st i

/-- Freshly constructed task queue. -/
def initT : TaskState := ⟨[], [], [], 0⟩

/-- Scheduler states reachable from a fresh queue. -/
inductive ReachableT (cfg : ConcurrencyConfig) : TaskState → Prop
  | init : ReachableT cfg initT
  | next (e : TEvent) {st : TaskState} :
      ReachableT cfg st → ReachableT cfg (stepT cfg e st)

/-- Number of running tasks sharing the tab `t`. -/
def cnt (l : List QueuedTask) (t : Nat) : Nat :=
  (l.filter (fun u => u.tabId = some t)).length

/-- Nonstrict comparator order: `a` may be placed before `b`. -/
def priOrder (a b : QueuedTask) : Prop :=
  b.priority < a.priority ∨ (a.priority = b.priority ∧ a.enqueuedAt ≤ b.enqueuedAt)

/-- Scheduler invariant: the per-tab counter map agrees with the running
set, and both concurrency caps hold. -/
def TInv (cfg : ConcurrencyConfig) (st : TaskState) : Prop :=
  (∀ t, mapCount st.perTabCount t = cnt st.running t) ∧
  st.running.length ≤ cfg.maxGlobal ∧
  (∀ t, cnt st.running t ≤ cfg.maxPerTab)

end Sched

namespace Relay

open McpBridge

/-- A WebSocket connection held by the relay broker; the broker only ever
reads `readyState` (1 is OPEN). -/
structure Conn where
  connId : Nat
  readyState : Nat
  deriving DecidableEq

/-- The per-connection `clientType` variable of bridge.ts. -/
inductive RRole
  | extension
  | mcpServer
  deriving DecidableEq

/-- Global registries of the broker: the executor (extension) set and
the single orchestrator (mcp-server) slot. -/
structure RelayState where
  extensionClients : List Conn
  mcpServerClient : Option Conn
  deriving DecidableEq

/-- Observable effects of the broker message handler. -/
inductive REff
  | sendTo (c : Conn) (m : BridgeMessage)
  | logForward
  | logNoExecutor
  | logNoMcp
  | logReceived
  deriving DecidableEq

/-- Handshake acknowledgment sent on registration. -/
def helloAck : BridgeMessage :=
  { mkMsg MsgType.hello with status := some "connected" }

/-- The `message` handler of bridge.ts for a connection `ws` whose
current registration is `role`: registration on hello, broadcast of
tool calls from the mcp-server to every OPEN extension client (a log
line and a drop when none is open, nothing synthesized back), and
forwarding of responses from extensions to the mcp-server slot. -/
def onRelayMessage (st : RelayState) (ws : Conn) (role : Option RRole) (m : BridgeMessage) :
    RelayState × Option RRole × List REff :=
  if m.type = MsgType.hello ∧ m.client = some ClientType.extension then
    ({ st with extensionClients := st.extensionClients ++ [ws] },
     some RRole.extension, [REff.sendTo ws helloAck])
  else if m.type = MsgType.hello ∧ m.client = some ClientType.mcpServer then
    ({ st with mcpServerClient := some ws },
     some RRole.mcpServer, [REff.sendTo ws helloAck])
  else if m.type = MsgType.tool_call ∧ role = some RRole.mcpServer then
    let opens := st.extensionClients.filter (fun c => c.readyState = 1)
    (st, role,
     REff.logForward :: opens.map (fun c => REff.sendTo c m)
       ++ if opens.isEmpty then [REff.logNoExecutor] else [])
  else if m.type = MsgType.response ∧ role = some RRole.extension then
    match st.mcpServerClient with
    | some mc =>
        if mc.readyState = 1 then (st, role, [REff.logForward, REff.sendTo mc m])
        else (st, role, [REff.logForward, REff.logNoMcp])
    | none => (st, role, [REff.logForward, REff.logNoMcp])
  else (st, role, [REff.logReceived])

end Relay

namespace McpBridge

theorem settleCount_nil (i : Nat) : settleCount i [] = 0 :=
  rfl

theorem settleCount_append (i : Nat) (a b : List Eff) :
    settleCount i (a ++ b) = settleCount i a + settleCount i b := by
  simp [settleCount, List.filter_append]

theorem settleCount_cons (i : Nat) (e : Eff) (l : List Eff) :
    settleCount i (e :: l) =
      (if settlesReq i e then 1 else 0) + settleCount i l := by
  simp [settleCount, List.filter_cons]
  split <;> simp [Nat.add_comm]

theorem sentOf_append (a b : List Eff) :
    sentOf (a ++ b) = sentOf a ++ sentOf b :=
  List.filterMap_append a b _

theorem safeSend_cases (ok : Bool) (s : ClientState) (m : BridgeMessage) :
    safeSend ok s m = (true, [Eff.send m]) ∨
    safeSend ok s m = (false, []) ∨
    safeSend ok s m = (false, [Eff.logLine "Failed to send message"]) := by
  unfold safeSend
  repeat' split
  all_goals simp

theorem settleCount_safeSend (i : Nat) (ok : Bool) (s : ClientState) (m : BridgeMessage) :
    settleCount i (safeSend ok s m).2 = 0 := by
  rcases safeSend_cases ok s m with h | h | h <;>
    simp [h, settleCount, settlesReq, List.filter_cons]

theorem sentOf_safeSend (ok : Bool) (s : ClientState) (m : BridgeMessage) :
    sentOf (safeSend ok s m).2 = if (safeSend ok s m).1 then [m] else [] := by
  rcases safeSend_cases ok s m with h | h | h <;> simp [h, sentOf]

theorem sendMessage_effs (ok : Bool) (cfg : BridgeConfig) (s : ClientState) (m : BridgeMessage) :
    (sendMessage ok cfg s m).2 = (safeSend ok s m).2 := by
  cases hr : (safeSend ok s m).1 <;> simp [sendMessage, hr]

theorem settleCount_sendMessage (i : Nat) (ok : Bool) (cfg : BridgeConfig)
    (s : ClientState) (m : BridgeMessage) :
    settleCount i (sendMessage ok cfg s m).2 = 0 := by
  rw [sendMessage_effs]
  exact settleCount_safeSend i ok s m

theorem sendMessage_state (ok : Bool) (cfg : BridgeConfig) (s : ClientState) (m : BridgeMessage) :
    (sendMessage ok cfg s m).1 =
      if (safeSend ok s m).1 then s
      else { s with messageQueue :=
        (if s.messageQueue.length ≥ cfg.messageQueueLimit then s.messageQueue.tail
         else s.messageQueue) ++ [m] } := by
  cases hr : (safeSend ok s m).1 <;> simp [sendMessage, hr]

theorem sendMessage_inert (i : Nat) (ok : Bool) (cfg : BridgeConfig)
    (s : ClientState) (m : BridgeMessage) :
    (sendMessage ok cfg s m).1.pendingRequests = s.pendingRequests ∧
    (sendMessage ok cfg s m).1.nextReqId = s.nextReqId ∧
    settleCount i (sendMessage ok cfg s m).2 = 0 := by
  rw [sendMessage_state]
  refine ⟨?_, ?_, settleCount_sendMessage i ok cfg s m⟩ <;> split <;> rfl

theorem flushGo_cons (s : ClientState) (oracle : Nat → Bool) (k : Nat)
    (m : BridgeMessage) (rest : List BridgeMessage) :
    flushGo s oracle k (m :: rest) =
      if (safeSend (oracle k) s m).1 then
        ((flushGo s oracle (k + 1) rest).1,
         (safeSend (oracle k) s m).2 ++ (flushGo s oracle (k + 1) rest).2)
      else (m :: rest, (safeSend (oracle k) s m).2) := by
  cases hs : (safeSend (oracle k) s m).1 <;> simp [flushGo, hs]

theorem settleCount_flushGo (i : Nat) (s : ClientState) (oracle : Nat → Bool) :
    ∀ (q : List BridgeMessage) (k : Nat), settleCount i (flushGo s oracle k q).2 = 0
  | [], _ => rfl
  | m :: rest, k => by
    rw [flushGo_cons]
    cases hs : (safeSend (oracle k) s m).1 with
    | true =>
      simp [hs, settleCount_append, settleCount_safeSend,
        settleCount_flushGo i s oracle rest (k + 1)]
    | false => simp [hs, settleCount_safeSend]

theorem flushGo_spec (s : ClientState) (oracle : Nat → Bool) :
    ∀ (q : List BridgeMessage) (k : Nat), ∃ n,
      (flushGo s oracle k q).1 = q.drop n ∧
      sentOf (flushGo s oracle k q).2 = q.take n
  | [], _ => ⟨0, rfl, rfl⟩
  | m :: rest, k => by
    rw [flushGo_cons]
    cases hs : (safeSend (oracle k) s m).1 with
    | true =>
      obtain ⟨n, h1, h2⟩ := flushGo_spec s oracle rest (k + 1)
      have hsent : sentOf (safeSend (oracle k) s m).2 = [m] := by
        rw [sentOf_safeSend, hs]; rfl
      exact ⟨n + 1, by simpa using h1, by simp [sentOf_append, hsent, h2]⟩
    | false =>
      have hsent : sentOf (safeSend (oracle k) s m).2 = [] := by
        rw [sentOf_safeSend, hs]; rfl
      exact ⟨0, by simp, by simpa using hsent⟩

theorem flushMessageQueue_pending (oracle : Nat → Bool) (k0 : Nat) (s : ClientState) :
    (flushMessageQueue oracle k0 s).1.pendingRequests = s.pendingRequests ∧
    (flushMessageQueue oracle k0 s).1.nextReqId = s.nextReqId :=
  ⟨rfl, rfl⟩

theorem handleOpen_inert (i : Nat) (oracle : Nat → Bool) (cfg : BridgeConfig)
    (ct : ClientType) (s : ClientState) :
    (handleOpen oracle cfg ct s).1.pendingRequests = s.pendingRequests ∧
    (handleOpen oracle cfg ct s).1.nextReqId = s.nextReqId ∧
    settleCount i (handleOpen oracle cfg ct s).2 = 0 := by
  unfold handleOpen flushMessageQueue
  refine ⟨?_, ?_, ?_⟩
  · exact (sendMessage_inert i (oracle 0) cfg _ _).1
  · exact (sendMessage_inert i (oracle 0) cfg _ _).2.1
  · simp [settleCount_append, settleCount_sendMessage, settleCount_flushGo,
      settleCount_cons, settleCount_nil, settlesReq]

theorem scheduleReconnect_inert (i : Nat) (cfg : BridgeConfig) (s : ClientState) :
    (scheduleReconnect cfg s).1.pendingRequests = s.pendingRequests ∧
    (scheduleReconnect cfg s).1.nextReqId = s.nextReqId ∧
    (scheduleReconnect cfg s).1.messageQueue = s.messageQueue ∧
    settleCount i (scheduleReconnect cfg s).2 = 0 := by
  unfold scheduleReconnect
  split_ifs <;> simp [settleCount, settlesReq, List.filter_cons]

theorem handleClose_inert (i : Nat) (cfg : BridgeConfig) (s : ClientState) :
    (handleClose cfg s).1.pendingRequests = s.pendingRequests ∧
    (handleClose cfg s).1.nextReqId = s.nextReqId ∧
    (handleClose cfg s).1.messageQueue = s.messageQueue ∧
    settleCount i (handleClose cfg s).2 = 0 := by
  unfold handleClose
  refine ⟨(scheduleReconnect_inert i cfg _).1, (scheduleReconnect_inert i cfg _).2.1,
    (scheduleReconnect_inert i cfg _).2.2.1, ?_⟩
  simp [settleCount_cons, settlesReq, (scheduleReconnect_inert i cfg _).2.2.2]

theorem connect_inert (i : Nat) (ok : Bool) (cfg : BridgeConfig) (s : ClientState) :
    (connect ok cfg s).1.pendingRequests = s.pendingRequests ∧
    (connect ok cfg s).1.nextReqId = s.nextReqId ∧
    (connect ok cfg s).1.messageQueue = s.messageQueue ∧
    settleCount i (connect ok cfg s).2 = 0 := by
  unfold connect
  split_ifs
  · exact ⟨rfl, rfl, rfl, rfl⟩
  · exact ⟨rfl, rfl, rfl, rfl⟩
  · refine ⟨(scheduleReconnect_inert i cfg _).1, (scheduleReconnect_inert i cfg _).2.1,
      (scheduleReconnect_inert i cfg _).2.2.1, ?_⟩
    simp [settleCount_cons, settlesReq, (scheduleReconnect_inert i cfg _).2.2.2]

theorem reconnectTick_inert (i : Nat) (ok : Bool) (cfg : BridgeConfig) (s : ClientState) :
    (reconnectTick ok cfg s).1.pendingRequests = s.pendingRequests ∧
    (reconnectTick ok cfg s).1.nextReqId = s.nextReqId ∧
    (reconnectTick ok cfg s).1.messageQueue = s.messageQueue ∧
    settleCount i (reconnectTick ok cfg s).2 = 0 := by
  unfold reconnectTick
  split_ifs
  · exact ⟨rfl, rfl, rfl, rfl⟩
  · refine ⟨(connect_inert i ok cfg _).1, (connect_inert i ok cfg _).2.1,
      (connect_inert i ok cfg _).2.2.1, ?_⟩
    simp [settleCount_cons, settlesReq, (connect_inert i ok cfg _).2.2.2]
  · exact ⟨rfl, rfl, rfl, by simp [settleCount, settlesReq]⟩

theorem disconnect_inert (i : Nat) (s : ClientState) :
    (disconnect s).1.pendingRequests = s.pendingRequests ∧
    (disconnect s).1.nextReqId = s.nextReqId ∧
    (disconnect s).1.messageQueue = s.messageQueue ∧
    settleCount i (disconnect s).2 = 0 := by
  unfold disconnect
  refine ⟨rfl, rfl, rfl, ?_⟩
  split <;> simp [settleCount, settlesReq, List.filter_cons]

end McpBridge

namespace McpBridge

theorem handleMessage_resp (s : ClientState) (m : BridgeMessage) (i : Nat)
    (hty : m.type = MsgType.response) (hid : m.id = some i) :
    handleMessage s m = handleRespId s m i := by
  have h1 : ¬(m.type = MsgType.hello ∧ m.status = some "connected") := by
    simp [hty]
  have h2 : m.type = MsgType.response ∧ m.id.isSome := ⟨hty, by simp [hid]⟩
  simp only [handleMessage, if_neg h1, dif_pos h2]
  congr 1
  simp [hid]

theorem handleRespId_mem (s : ClientState) (m : BridgeMessage) (i : Nat)
    (hmem : i ∈ s.pendingRequests) :
    (handleRespId s m i).1 = { s with pendingRequests := s.pendingRequests.erase i } ∧
    settleCount i (handleRespId s m i).2 = 1 ∧
    ∀ j, j ≠ i → settleCount j (handleRespId s m i).2 = 0 := by
  have hc : s.pendingRequests.contains i = true := by simp [hmem]
  rcases herr : m.error with _ | e
  all_goals
    refine ⟨by simp [handleRespId, hc, hmem, herr], ?_, ?_⟩
  · simp [handleRespId, hc, hmem, herr, settleCount_cons, settleCount_nil, settlesReq]
  · intro j hj
    simp [handleRespId, hc, hmem, herr, settleCount_cons, settleCount_nil, settlesReq,
      Ne.symm hj]
  · simp [handleRespId, hc, hmem, herr, settleCount_cons, settleCount_nil, settlesReq]
  · intro j hj
    simp [handleRespId, hc, hmem, herr, settleCount_cons, settleCount_nil, settlesReq,
      Ne.symm hj]

theorem handleRespId_nomem (s : ClientState) (m : BridgeMessage) (i : Nat)
    (hmem : i ∉ s.pendingRequests) :
    handleRespId s m i = (s, []) := by
  have hc : s.pendingRequests.contains i = false := by simpa using hmem
  simp [handleRespId, hc, hmem]

theorem handleMessage_other (s : ClientState) (m : BridgeMessage)
    (h : m.type = MsgType.response → m.id = none) :
    (handleMessage s m).1 = s ∧ ∀ i, settleCount i (handleMessage s m).2 = 0 := by
  unfold handleMessage
  split_ifs with h1 h2 h3
  · exact ⟨rfl, fun i => by simp [settleCount_cons, settleCount_nil, settlesReq]⟩
  · rw [h h2.1] at h2
    simp at h2
  · exact ⟨rfl, fun i => by simp [settleCount_cons, settleCount_nil, settlesReq]⟩
  · exact ⟨rfl, fun i => by simp [settleCount_cons, settleCount_nil, settlesReq]⟩

theorem timeoutFire_mem (s : ClientState) (i : Nat) (hmem : i ∈ s.pendingRequests) :
    (timeoutFire s i).1 = { s with pendingRequests := s.pendingRequests.erase i } ∧
    settleCount i (timeoutFire s i).2 = 1 ∧
    ∀ j, j ≠ i → settleCount j (timeoutFire s i).2 = 0 := by
  have hc : s.pendingRequests.contains i = true := by simp [hmem]
  refine ⟨by simp [timeoutFire, hc, hmem], ?_, ?_⟩
  · simp [timeoutFire, hc, hmem, settleCount_cons, settleCount_nil, settlesReq]
  · intro j hj
    simp [timeoutFire, hc, hmem, settleCount_cons, settleCount_nil, settlesReq, Ne.symm hj]

theorem timeoutFire_nomem (s : ClientState) (i : Nat) (hmem : i ∉ s.pendingRequests) :
    timeoutFire s i = (s, []) := by
  have hc : s.pendingRequests.contains i = false := by simpa using hmem
  simp [timeoutFire, hc, hmem]

theorem settleCount_rejectAll (msg : String) (i : Nat) :
    ∀ (l : List Nat), l.Nodup →
      settleCount i (l.flatMap (fun j => [Eff.cancelTimeout j, Eff.rejectReq j msg])) =
        if i ∈ l then 1 else 0
  | [], _ => by simp [settleCount_nil]
  | j :: rest, h => by
    have hrest : rest.Nodup := (List.nodup_cons.mp h).2
    have hr := settleCount_rejectAll msg i rest hrest
    by_cases hij : i = j
    · subst hij
      have hni : i ∉ rest := (List.nodup_cons.mp h).1
      simp [settleCount_append, settleCount_cons, settleCount_nil, settlesReq, hr, hni]
    · simp [settleCount_append, settleCount_cons, settleCount_nil, settlesReq, hr,
        Ne.symm hij, hij]

theorem clearQueue_spec (s : ClientState) :
    (clearQueue s).1.messageQueue = [] ∧
    (clearQueue s).1.pendingRequests = [] ∧
    (clearQueue s).1.nextReqId = s.nextReqId ∧
    (clearQueue s).2 =
      s.pendingRequests.flatMap
        (fun i => [Eff.cancelTimeout i, Eff.rejectReq i "Connection lost"]) :=
  ⟨rfl, rfl, rfl, rfl⟩

theorem sendRequest_notConnected (ok : Bool) (cfg : BridgeConfig) (s : ClientState)
    (tool : String) (ps : Option (List (String × Json))) (t : Nat)
    (h : s.isConnected = false) :
    sendRequest ok cfg s tool ps t =
      Except.error (ErrorCode.BRIDGE_NOT_CONNECTED, "Bridge not connected") := by
  simp [sendRequest, h]

theorem sendRequest_connected (ok : Bool) (cfg : BridgeConfig) (s : ClientState)
    (tool : String) (ps : Option (List (String × Json))) (t : Nat)
    (h : s.isConnected = true) :
    sendRequest ok cfg s tool ps t =
      Except.ok ((sendMessage ok cfg
          { s with nextReqId := s.nextReqId + 1,
                   pendingRequests := s.pendingRequests ++ [s.nextReqId] }
          (toolCallMsg s.nextReqId tool ps)).1,
        s.nextReqId,
        Eff.setTimeoutFor s.nextReqId t ::
          (sendMessage ok cfg
            { s with nextReqId := s.nextReqId + 1,
                     pendingRequests := s.pendingRequests ++ [s.nextReqId] }
            (toolCallMsg s.nextReqId tool ps)).2) := by
  simp [sendRequest, h]

theorem ClientInv_of_eq (s s' : ClientState) (hp : s'.pendingRequests = s.pendingRequests)
    (hn : s'.nextReqId = s.nextReqId) (h : ClientInv s) : ClientInv s' := by
  rw [ClientInv, hp, hn]
  exact h

theorem ClientInv_erase (s : ClientState) (j : Nat) (h : ClientInv s) :
    ClientInv { s with pendingRequests := s.pendingRequests.erase j } :=
  ⟨h.1.erase j, fun i hi => h.2 i (List.mem_of_mem_erase hi)⟩

theorem ClientInv_register (s : ClientState) (h : ClientInv s) :
    ClientInv { s with pendingRequests := s.pendingRequests ++ [s.nextReqId],
                       nextReqId := s.nextReqId + 1 } := by
  constructor
  · have hni : s.nextReqId ∉ s.pendingRequests := fun hmem =>
      absurd (h.2 s.nextReqId hmem) (lt_irrefl s.nextReqId)
    simp [List.nodup_append, h.1, hni]
  · intro i hi
    rcases List.mem_append.mp hi with hi | hi
    · exact Nat.lt_succ_of_lt (h.2 i hi)
    · simp at hi
      simp [hi]

theorem handleMessage_nextReq (s : ClientState) (m : BridgeMessage) :
    (handleMessage s m).1.nextReqId = s.nextReqId := by
  unfold handleMessage handleRespId
  split_ifs <;> try rfl
  rcases m.error with _ | e <;> rfl

end McpBridge

namespace McpBridge

theorem timeoutFire_nextReq (s : ClientState) (i : Nat) :
    (timeoutFire s i).1.nextReqId = s.nextReqId := by
  unfold timeoutFire
  split <;> rfl

theorem handleMessage_pending_cases (s : ClientState) (m : BridgeMessage) :
    (handleMessage s m).1 = s ∨
    ∃ j, (handleMessage s m).1 = { s with pendingRequests := s.pendingRequests.erase j } := by
  by_cases hty : m.type = MsgType.response
  · cases hid : m.id with
    | none => exact Or.inl (handleMessage_other s m (fun _ => hid)).1
    | some j =>
      rw [handleMessage_resp s m j hty hid]
      by_cases hjm : j ∈ s.pendingRequests
      · exact Or.inr ⟨j, (handleRespId_mem s m j hjm).1⟩
      · rw [handleRespId_nomem s m j hjm]
        exact Or.inl rfl
  · exact Or.inl (handleMessage_other s m (fun h => absurd h hty)).1

theorem ClientInv_erase_eq (s' s : ClientState) (j : Nat)
    (hp : s'.pendingRequests = s.pendingRequests.erase j) (hn : s'.nextReqId = s.nextReqId)
    (hInv : ClientInv s) : ClientInv s' := by
  constructor
  · rw [hp]
    exact hInv.1.erase j
  · intro x hx
    rw [hn]
    exact hInv.2 x (List.mem_of_mem_erase (hp ▸ hx))

theorem step_main (cfg : BridgeConfig) (ct : ClientType) (e : Event) (s : ClientState) (i : Nat)
    (hInv : ClientInv s) :
    ClientInv (step cfg ct e s).1 ∧
    s.nextReqId ≤ (step cfg ct e s).1.nextReqId ∧
    (i ∈ s.pendingRequests → isSettlerEvent i e = true →
      settleCount i (step cfg ct e s).2 = 1 ∧ i ∉ (step cfg ct e s).1.pendingRequests) ∧
    (i ∈ s.pendingRequests → isSettlerEvent i e = false →
      settleCount i (step cfg ct e s).2 = 0 ∧ i ∈ (step cfg ct e s).1.pendingRequests) ∧
    (i ∉ s.pendingRequests → i < s.nextReqId →
      settleCount i (step cfg ct e s).2 = 0 ∧ i ∉ (step cfg ct e s).1.pendingRequests) := by
  cases e with
  | evConnect ok =>
    obtain ⟨hp, hn, _, hs0⟩ := connect_inert i ok cfg s
    simp only [step]
    refine ⟨ClientInv_of_eq _ _ hp hn hInv, le_of_eq hn.symm, ?_, ?_, ?_⟩
    · intro _ hset
      simp [isSettlerEvent] at hset
    · intro hmem _
      exact ⟨hs0, by rw [hp]; exact hmem⟩
    · intro hnm _
      exact ⟨hs0, by rw [hp]; exact hnm⟩
  | evOpen oracle =>
    simp only [step]
    by_cases hws : s.ws.isSome
    · simp only [hws, if_true]
      obtain ⟨hp, hn, hs0⟩ :=
        handleOpen_inert i oracle cfg ct { s with ws := some WsReady.opened }
      have hp2 : (handleOpen oracle cfg ct
          { s with ws := some WsReady.opened }).1.pendingRequests = s.pendingRequests := hp
      have hn2 : (handleOpen oracle cfg ct
          { s with ws := some WsReady.opened }).1.nextReqId = s.nextReqId := hn
      refine ⟨ClientInv_of_eq s _ hp2 hn2 hInv, le_of_eq hn2.symm, ?_, ?_, ?_⟩
      · intro _ hset
        simp [isSettlerEvent] at hset
      · intro hmem _
        exact ⟨hs0, by rw [hp2]; exact hmem⟩
      · intro hnm _
        exact ⟨hs0, by rw [hp2]; exact hnm⟩
    · simp only [hws, if_false]
      refine ⟨hInv, le_refl _, ?_, ?_, ?_⟩
      · intro _ hset
        simp [isSettlerEvent] at hset
      · intro hmem _
        exact ⟨rfl, hmem⟩
      · intro hnm _
        exact ⟨rfl, hnm⟩
  | evRecv m =>
    simp only [step]
    refine ⟨?_, le_of_eq (handleMessage_nextReq s m).symm, ?_, ?_, ?_⟩
    · rcases handleMessage_pending_cases s m with h | ⟨j, h⟩
      · rw [h]
        exact hInv
      · exact ClientInv_erase_eq _ s j (by rw [h]) (handleMessage_nextReq s m) hInv
    · intro hmem hset
      simp only [isSettlerEvent, Bool.and_eq_true, beq_iff_eq] at hset
      obtain ⟨hty, hid⟩ := hset
      rw [handleMessage_resp s m i hty hid]
      obtain ⟨h1, h2, _⟩ := handleRespId_mem s m i hmem
      refine ⟨h2, ?_⟩
      rw [h1]
      exact hInv.1.not_mem_erase
    · intro hmem hset
      have hni : ¬(m.type = MsgType.response ∧ m.id = some i) := by
        simpa [isSettlerEvent] using hset
      by_cases hty : m.type = MsgType.response
      · cases hid : m.id with
        | none =>
          obtain ⟨h1, h2⟩ := handleMessage_other s m (fun _ => hid)
          exact ⟨h2 i, by rw [h1]; exact hmem⟩
        | some j =>
          have hij : i ≠ j := by
            intro h
            exact hni ⟨hty, h ▸ hid⟩
          rw [handleMessage_resp s m j hty hid]
          by_cases hjm : j ∈ s.pendingRequests
          · obtain ⟨h1, _, h3⟩ := handleRespId_mem s m j hjm
            refine ⟨h3 i hij, ?_⟩
            rw [h1]
            exact (List.mem_erase_of_ne hij).mpr hmem
          · rw [handleRespId_nomem s m j hjm]
            exact ⟨rfl, hmem⟩
      · obtain ⟨h1, h2⟩ := handleMessage_other s m (fun h => absurd h hty)
        exact ⟨h2 i, by rw [h1]; exact hmem⟩
    · intro hnm _
      by_cases hty : m.type = MsgType.response
      · cases hid : m.id with
        | none =>
          obtain ⟨h1, h2⟩ := handleMessage_other s m (fun _ => hid)
          exact ⟨h2 i, by rw [h1]; exact hnm⟩
        | some j =>
          rw [handleMessage_resp s m j hty hid]
          by_cases hjm : j ∈ s.pendingRequests
          · have hij : i ≠ j := fun h => hnm (h ▸ hjm)
            obtain ⟨h1, _, h3⟩ := handleRespId_mem s m j hjm
            refine ⟨h3 i hij, ?_⟩
            rw [h1]
            exact fun h => hnm (List.mem_of_mem_erase h)
          · rw [handleRespId_nomem s m j hjm]
            exact ⟨rfl, hnm⟩
      · obtain ⟨h1, h2⟩ := handleMessage_other s m (fun h => absurd h hty)
        exact ⟨h2 i, by rw [h1]; exact hnm⟩
  | evSocketError =>
    simp only [step]
    refine ⟨hInv, le_refl _, ?_, ?_, ?_⟩
    · intro _ hset
      simp [isSettlerEvent] at hset
    · intro hmem _
      exact ⟨by simp [handleErrorEv, settleCount_cons, settleCount_nil, settlesReq], hmem⟩
    · intro hnm _
      exact ⟨by simp [handleErrorEv, settleCount_cons, settleCount_nil, settlesReq], hnm⟩
  | evClose =>
    simp only [step]
    by_cases hws : s.ws.isSome
    · simp only [hws, if_true]
      obtain ⟨hp, hn, _, hs0⟩ := handleClose_inert i cfg s
      refine ⟨ClientInv_of_eq _ _ hp hn hInv, le_of_eq hn.symm, ?_, ?_, ?_⟩
      · intro _ hset
        simp [isSettlerEvent] at hset
      · intro hmem _
        exact ⟨hs0, by rw [hp]; exact hmem⟩
      · intro hnm _
        exact ⟨hs0, by rw [hp]; exact hnm⟩
    · simp only [hws, if_false]
      refine ⟨hInv, le_refl _, ?_, ?_, ?_⟩
      · intro _ hset
        simp [isSettlerEvent] at hset
      · intro hmem _
        exact ⟨rfl, hmem⟩
      · intro hnm _
        exact ⟨rfl, hnm⟩
  | evTick ok =>
    obtain ⟨hp, hn, _, hs0⟩ := reconnectTick_inert i ok cfg s
    simp only [step]
    refine ⟨ClientInv_of_eq _ _ hp hn hInv, le_of_eq hn.symm, ?_, ?_, ?_⟩
    · intro _ hset
      simp [isSettlerEvent] at hset
    · intro hmem _
      exact ⟨hs0, by rw [hp]; exact hmem⟩
    · intro hnm _
      exact ⟨hs0, by rw [hp]; exact hnm⟩
  | evTimeout j =>
    simp only [step]
    refine ⟨?_, le_of_eq (timeoutFire_nextReq s j).symm, ?_, ?_, ?_⟩
    · by_cases hjm : j ∈ s.pendingRequests
      · exact ClientInv_erase_eq _ s j (by rw [(timeoutFire_mem s j hjm).1])
          (timeoutFire_nextReq s j) hInv
      · rw [timeoutFire_nomem s j hjm]
        exact hInv
    · intro hmem hset
      simp only [isSettlerEvent, beq_iff_eq] at hset
      rw [hset]
      obtain ⟨h1, h2, _⟩ := timeoutFire_mem s i hmem
      refine ⟨h2, ?_⟩
      rw [h1]
      exact hInv.1.not_mem_erase
    · intro hmem hset
      simp only [isSettlerEvent, beq_eq_false_iff_ne, ne_eq] at hset
      by_cases hjm : j ∈ s.pendingRequests
      · obtain ⟨h1, _, h3⟩ := timeoutFire_mem s j hjm
        refine ⟨h3 i (fun h => hset h.symm), ?_⟩
        rw [h1]
        exact (List.mem_erase_of_ne (fun h => hset h.symm)).mpr hmem
      · rw [timeoutFire_nomem s j hjm]
        exact ⟨rfl, hmem⟩
    · intro hnm _
      by_cases hjm : j ∈ s.pendingRequests
      · have hij : i ≠ j := fun h => hnm (h ▸ hjm)
        obtain ⟨h1, _, h3⟩ := timeoutFire_mem s j hjm
        refine ⟨h3 i hij, ?_⟩
        rw [h1]
        exact fun h => hnm (List.mem_of_mem_erase h)
      · rw [timeoutFire_nomem s j hjm]
        exact ⟨rfl, hnm⟩
  | evSendMessage ok m =>
    obtain ⟨hp, hn, hs0⟩ := sendMessage_inert i ok cfg s m
    simp only [step]
    refine ⟨ClientInv_of_eq _ _ hp hn hInv, le_of_eq hn.symm, ?_, ?_, ?_⟩
    · intro _ hset
      simp [isSettlerEvent] at hset
    · intro hmem _
      exact ⟨hs0, by rw [hp]; exact hmem⟩
    · intro hnm _
      exact ⟨hs0, by rw [hp]; exact hnm⟩
  | evSendRequest ok tool ps t =>
    simp only [step]
    cases hconn : s.isConnected with
    | false =>
      rw [sendRequest_notConnected ok cfg s tool ps t hconn]
      refine ⟨hInv, le_refl _, ?_, ?_, ?_⟩
      · intro _ hset
        simp [isSettlerEvent] at hset
      · intro hmem _
        exact ⟨by simp [settleCount_cons, settleCount_nil, settlesReq], hmem⟩
      · intro hnm _
        exact ⟨by simp [settleCount_cons, settleCount_nil, settlesReq], hnm⟩
    | true =>
      rw [sendRequest_connected ok cfg s tool ps t hconn]
      obtain ⟨hp, hn, hs0⟩ := sendMessage_inert i ok cfg
        { s with nextReqId := s.nextReqId + 1,
                 pendingRequests := s.pendingRequests ++ [s.nextReqId] }
        (toolCallMsg s.nextReqId tool ps)
      refine ⟨ClientInv_of_eq _ _ hp hn (ClientInv_register s hInv), ?_, ?_, ?_, ?_⟩
      · rw [hn]
        exact Nat.le_succ _
      · intro _ hset
        simp [isSettlerEvent] at hset
      · intro hmem _
        refine ⟨?_, ?_⟩
        · simp [settleCount_cons, settlesReq, hs0]
        · rw [hp]
          exact List.mem_append_left _ hmem
      · intro hnm hlt
        refine ⟨?_, ?_⟩
        · simp [settleCount_cons, settlesReq, hs0]
        · rw [hp]
          intro h
          rcases List.mem_append.mp h with h | h
          · exact hnm h
          · simp at h
            exact absurd h (Nat.ne_of_lt hlt)
  | evDisconnect =>
    obtain ⟨hp, hn, _, hs0⟩ := disconnect_inert i s
    simp only [step]
    refine ⟨ClientInv_of_eq _ _ hp hn hInv, le_of_eq hn.symm, ?_, ?_, ?_⟩
    · intro _ hset
      simp [isSettlerEvent] at hset
    · intro hmem _
      exact ⟨hs0, by rw [hp]; exact hmem⟩
    · intro hnm _
      exact ⟨hs0, by rw [hp]; exact hnm⟩
  | evClearQueue =>
    simp only [step]
    refine ⟨⟨List.nodup_nil, by simp [clearQueue]⟩, le_refl _, ?_, ?_, ?_⟩
    · intro hmem _
      refine ⟨?_, by simp [clearQueue]⟩
      rw [(clearQueue_spec s).2.2.2, settleCount_rejectAll _ i _ hInv.1]
      simp [hmem]
    · intro _ hset
      simp [isSettlerEvent] at hset
    · intro hnm _
      refine ⟨?_, by simp [clearQueue]⟩
      rw [(clearQueue_spec s).2.2.2, settleCount_rejectAll _ i _ hInv.1]
      simp [hnm]

end McpBridge

namespace McpBridge

theorem reachable_inv (cfg : BridgeConfig) (ct : ClientType) :
    ∀ {s : ClientState}, Reachable cfg ct s → ClientInv s := by
  intro s h
  induction h with
  | init => exact ⟨List.nodup_nil, by simp [initState]⟩
  | next e h ih => exact (step_main cfg ct e _ 0 ih).1

theorem runTrace_cons (cfg : BridgeConfig) (ct : ClientType) (e : Event) (es : List Event)
    (s : ClientState) :
    runTrace cfg ct (e :: es) s =
      ((runTrace cfg ct es (step cfg ct e s).1).1,
       (step cfg ct e s).2 ++ (runTrace cfg ct es (step cfg ct e s).1).2) :=
  rfl

theorem reachable_runTrace (cfg : BridgeConfig) (ct : ClientType) :
    ∀ (es : List Event) (s : ClientState), Reachable cfg ct s →
      Reachable cfg ct (runTrace cfg ct es s).1
  | [], _, h => h
  | e :: es, s, h =>
    reachable_runTrace cfg ct es (step cfg ct e s).1 (Reachable.next e h)

theorem trace_nomem (cfg : BridgeConfig) (ct : ClientType) (i : Nat) :
    ∀ (es : List Event) (s : ClientState), ClientInv s → i ∉ s.pendingRequests →
      i < s.nextReqId → settleCount i (runTrace cfg ct es s).2 = 0
  | [], _, _, _, _ => rfl
  | e :: es, s, hInv, hnm, hlt => by
    rw [runTrace_cons, settleCount_append]
    obtain ⟨hInv2, hmono, _, _, h5⟩ := step_main cfg ct e s i hInv
    obtain ⟨h50, h51⟩ := h5 hnm hlt
    rw [h50, trace_nomem cfg ct i es _ hInv2 h51 (lt_of_lt_of_le hlt hmono)]

theorem trace_mem (cfg : BridgeConfig) (ct : ClientType) (i : Nat) :
    ∀ (es : List Event) (s : ClientState), ClientInv s → i ∈ s.pendingRequests →
      settleCount i (runTrace cfg ct es s).2 ≤ 1 ∧
      ((∃ e ∈ es, isSettlerEvent i e = true) →
        settleCount i (runTrace cfg ct es s).2 = 1)
  | [], s, _, _ => by
    refine ⟨by simp [runTrace, settleCount_nil], ?_⟩
    rintro ⟨e, he, _⟩
    simp at he
  | e :: es, s, hInv, hmem => by
    obtain ⟨hInv2, hmono, h3, h4, _⟩ := step_main cfg ct e s i hInv
    have hlt : i < s.nextReqId := hInv.2 i hmem
    cases hset : isSettlerEvent i e with
    | true =>
      obtain ⟨hc1, hnm2⟩ := h3 hmem hset
      have hrest : settleCount i (runTrace cfg ct es (step cfg ct e s).1).2 = 0 :=
        trace_nomem cfg ct i es _ hInv2 hnm2 (lt_of_lt_of_le hlt hmono)
      refine ⟨?_, fun _ => ?_⟩ <;>
        rw [runTrace_cons, settleCount_append, hc1, hrest]
    | false =>
      obtain ⟨hc0, hmem2⟩ := h4 hmem hset
      obtain ⟨ih1, ih2⟩ := trace_mem cfg ct i es _ hInv2 hmem2
      refine ⟨?_, ?_⟩
      · rw [runTrace_cons, settleCount_append, hc0]
        simpa using ih1
      · rintro ⟨e2, he2, hset2⟩
        rcases List.mem_cons.mp he2 with heq | hmem3
        · rw [heq] at hset2
          rw [hset2] at hset
          simp at hset
        · rw [runTrace_cons, settleCount_append, hc0]
          simpa using ih2 ⟨e2, hmem3, hset2⟩

theorem handleMessage_queue (s : ClientState) (m : BridgeMessage) :
    (handleMessage s m).1.messageQueue = s.messageQueue := by
  unfold handleMessage handleRespId
  split_ifs <;> try rfl
  rcases m.error with _ | e <;> rfl

theorem timeoutFire_queue (s : ClientState) (i : Nat) :
    (timeoutFire s i).1.messageQueue = s.messageQueue := by
  unfold timeoutFire
  split <;> rfl

theorem sendMessage_bound (ok : Bool) (cfg : BridgeConfig) (s : ClientState) (m : BridgeMessage)
    (hlim : 1 ≤ cfg.messageQueueLimit)
    (h : s.messageQueue.length ≤ cfg.messageQueueLimit) :
    (sendMessage ok cfg s m).1.messageQueue.length ≤ cfg.messageQueueLimit := by
  rw [sendMessage_state]
  split_ifs with h1 h2
  · exact h
  · simp only [List.length_append, List.length_tail, List.length_cons, List.length_nil]
    omega
  · simp only [List.length_append, List.length_cons, List.length_nil]
    omega

theorem flushMessageQueue_len (oracle : Nat → Bool) (k0 : Nat) (s : ClientState) :
    (flushMessageQueue oracle k0 s).1.messageQueue.length ≤ s.messageQueue.length := by
  obtain ⟨n, h1, _⟩ := flushGo_spec s oracle s.messageQueue k0
  show (flushGo s oracle k0 s.messageQueue).1.length ≤ s.messageQueue.length
  rw [h1]
  simp

theorem handleOpen_bound (oracle : Nat → Bool) (cfg : BridgeConfig) (ct : ClientType)
    (s : ClientState) (hlim : 1 ≤ cfg.messageQueueLimit)
    (h : s.messageQueue.length ≤ cfg.messageQueueLimit) :
    (handleOpen oracle cfg ct s).1.messageQueue.length ≤ cfg.messageQueueLimit := by
  show (flushMessageQueue oracle 1
      (sendMessage (oracle 0) cfg { s with isConnected := true, reconnectAttempts := 0 }
        (helloMsg ct)).1).1.messageQueue.length ≤ cfg.messageQueueLimit
  exact le_trans (flushMessageQueue_len oracle 1 _)
    (sendMessage_bound (oracle 0) cfg _ (helloMsg ct) hlim h)

theorem step_queueBound (cfg : BridgeConfig) (ct : ClientType) (e : Event) (s : ClientState)
    (hlim : 1 ≤ cfg.messageQueueLimit)
    (h : s.messageQueue.length ≤ cfg.messageQueueLimit) :
    (step cfg ct e s).1.messageQueue.length ≤ cfg.messageQueueLimit := by
  cases e with
  | evConnect ok =>
    have hq := (connect_inert 0 ok cfg s).2.2.1
    simp only [step]
    rw [hq]
    exact h
  | evOpen oracle =>
    simp only [step]
    by_cases hws : s.ws.isSome
    · simp only [hws, if_true]
      exact handleOpen_bound oracle cfg ct _ hlim h
    · simp only [hws, if_false]
      exact h
  | evRecv m =>
    simp only [step]
    rw [handleMessage_queue]
    exact h
  | evSocketError =>
    simp only [step, handleErrorEv]
    exact h
  | evClose =>
    simp only [step]
    by_cases hws : s.ws.isSome
    · simp only [hws, if_true]
      rw [(handleClose_inert 0 cfg s).2.2.1]
      exact h
    · simp only [hws, if_false]
      exact h
  | evTick ok =>
    simp only [step]
    rw [(reconnectTick_inert 0 ok cfg s).2.2.1]
    exact h
  | evTimeout i =>
    simp only [step]
    rw [timeoutFire_queue]
    exact h
  | evSendMessage ok m =>
    simp only [step]
    exact sendMessage_bound ok cfg s m hlim h
  | evSendRequest ok tool ps t =>
    simp only [step]
    cases hconn : s.isConnected with
    | false =>
      rw [sendRequest_notConnected ok cfg s tool ps t hconn]
      exact h
    | true =>
      rw [sendRequest_connected ok cfg s tool ps t hconn]
      exact sendMessage_bound ok cfg _ _ hlim h
  | evDisconnect =>
    simp only [step]
    rw [(disconnect_inert 0 s).2.2.1]
    exact h
  | evClearQueue =>
    simp only [step, clearQueue]
    simp

theorem reachable_queueBound (cfg : BridgeConfig) (ct : ClientType)
    (hlim : 1 ≤ cfg.messageQueueLimit) :
    ∀ {s : ClientState}, Reachable cfg ct s →
      s.messageQueue.length ≤ cfg.messageQueueLimit := by
  intro s h
  induction h with
  | init => exact Nat.zero_le _
  | next e h ih => exact step_queueBound cfg ct e _ hlim ih

end McpBridge

namespace McpBridge

theorem safeSend_false_fails (s : ClientState) (m : BridgeMessage) :
    (safeSend false s m).1 = false := by
  unfold safeSend
  split_ifs <;> simp_all

/-- Claim C1 (corrected): when `isConnected` is false, `sendRequest` throws a
BRIDGE_NOT_CONNECTED error synchronously and nothing is queued; when
`isConnected` is true but the socket-level send fails, the call envelope is
appended to the outbound queue with the request registered as pending, and
once a connection is established the envelope is flushed and the matching
response resolves the future with the data of the response. -/
theorem sendRequest_throw_or_queue (cfg : BridgeConfig) :
    (∀ (ok : Bool) (s : ClientState) (tool : String)
        (ps : Option (List (String × Json))) (t : Nat),
      s.isConnected = false →
      sendRequest ok cfg s tool ps t =
        Except.error (ErrorCode.BRIDGE_NOT_CONNECTED, "Bridge not connected")) ∧
    (∀ (s : ClientState) (tool : String) (ps : Option (List (String × Json))) (t : Nat),
      s.isConnected = true → s.messageQueue.length < cfg.messageQueueLimit →
      ∃ s2 effs, sendRequest false cfg s tool ps t = Except.ok (s2, s.nextReqId, effs) ∧
        s2.messageQueue = s.messageQueue ++ [toolCallMsg s.nextReqId tool ps] ∧
        s2.pendingRequests = s.pendingRequests ++ [s.nextReqId]) ∧
    ((runTrace defaultBridgeConfig ClientType.mcpServer
        [Event.evConnect true, Event.evOpen (fun _ => true),
         Event.evSendRequest false "navigate" (some [("url", Json.jstr "https://x")]) 1000]
        initState).1.messageQueue =
      [toolCallMsg 0 "navigate" (some [("url", Json.jstr "https://x")])] ∧
     Eff.send (toolCallMsg 0 "navigate" (some [("url", Json.jstr "https://x")])) ∈
       (runTrace defaultBridgeConfig ClientType.mcpServer
         [Event.evOpen (fun _ => true),
          Event.evRecv { mkMsg MsgType.response with id := some 0, data := some (Json.jstr "ok") }]
         (runTrace defaultBridgeConfig ClientType.mcpServer
           [Event.evConnect true, Event.evOpen (fun _ => true),
            Event.evSendRequest false "navigate" (some [("url", Json.jstr "https://x")]) 1000]
           initState).1).2 ∧
     Eff.resolveReq 0 (Json.jstr "ok") ∈
       (runTrace defaultBridgeConfig ClientType.mcpServer
         [Event.evOpen (fun _ => true),
          Event.evRecv { mkMsg MsgType.response with id := some 0, data := some (Json.jstr "ok") }]
         (runTrace defaultBridgeConfig ClientType.mcpServer
           [Event.evConnect true, Event.evOpen (fun _ => true),
            Event.evSendRequest false "navigate" (some [("url", Json.jstr "https://x")]) 1000]
           initState).1).2 ∧
     (runTrace defaultBridgeConfig ClientType.mcpServer
         [Event.evOpen (fun _ => true),
          Event.evRecv { mkMsg MsgType.response with id := some 0, data := some (Json.jstr "ok") }]
         (runTrace defaultBridgeConfig ClientType.mcpServer
           [Event.evConnect true, Event.evOpen (fun _ => true),
            Event.evSendRequest false "navigate" (some [("url", Json.jstr "https://x")]) 1000]
           initState).1).1.pendingRequests = []) := by
  refine ⟨?_, ?_, by decide, by decide, by decide, by decide⟩
  · intro ok s tool ps t h
    exact sendRequest_notConnected ok cfg s tool ps t h
  · intro s tool ps t hconn hlt
    refine ⟨_, _, sendRequest_connected false cfg s tool ps t hconn, ?_, ?_⟩
    · rw [sendMessage_state]
      have hf : (safeSend false
          { s with nextReqId := s.nextReqId + 1,
                   pendingRequests := s.pendingRequests ++ [s.nextReqId] }
          (toolCallMsg s.nextReqId tool ps)).1 = false := safeSend_false_fails _ _
      rw [hf]
      simp only [Bool.false_eq_true, if_false]
      have hno : ¬(s.messageQueue.length ≥ cfg.messageQueueLimit) := Nat.not_le.mpr hlt
      simp [hno]
    · exact (sendMessage_inert 0 false cfg _ _).1

/-- Witness for the corrected claim C1, applied at two concrete states. -/
theorem sendRequest_throw_or_queue_witness :
    sendRequest true defaultBridgeConfig
        ⟨some WsReady.opened, false, false, 0, [], [], 3⟩ "click" none 500 =
      Except.error (ErrorCode.BRIDGE_NOT_CONNECTED, "Bridge not connected") ∧
    ∃ s2 effs,
      sendRequest false defaultBridgeConfig
          ⟨some WsReady.opened, false, true, 0, [], [], 3⟩ "click" none 500 =
        Except.ok (s2, 3, effs) ∧
      s2.messageQueue = [toolCallMsg 3 "click" none] ∧
      s2.pendingRequests = [3] := by
  constructor
  · exact (sendRequest_throw_or_queue defaultBridgeConfig).1 true _ "click" none 500 rfl
  · obtain ⟨s2, effs, h1, h2, h3⟩ := (sendRequest_throw_or_queue defaultBridgeConfig).2.1
      ⟨some WsReady.opened, false, true, 0, [], [], 3⟩ "click" none 500 rfl (by decide)
    exact ⟨s2, effs, h1, by simpa using h2, by simpa using h3⟩

/-- Counterexample to claim C1 as stated: with no connection, `sendRequest`
does not queue the envelope; it throws a BRIDGE_NOT_CONNECTED error
synchronously and leaves the state (queue included) unchanged. -/
theorem sendRequest_disconnected_throws_cex :
    sendRequest true defaultBridgeConfig initState "navigate"
        (some [("url", Json.jstr "https://x")]) 1000 =
      Except.error (ErrorCode.BRIDGE_NOT_CONNECTED, "Bridge not connected") ∧
    (step defaultBridgeConfig ClientType.mcpServer
        (Event.evSendRequest true "navigate" (some [("url", Json.jstr "https://x")]) 1000)
        initState).1 = initState ∧
    (step defaultBridgeConfig ClientType.mcpServer
        (Event.evSendRequest true "navigate" (some [("url", Json.jstr "https://x")]) 1000)
        initState).2 =
      [Eff.thrown ErrorCode.BRIDGE_NOT_CONNECTED "Bridge not connected"] := by
  refine ⟨rfl, rfl, rfl⟩

/-- Claim C2 (code bug): with maxReconnectAttempts = 2, after two failed
automatic attempts the interval timer is still armed and the next tick
performs a third automatic connection attempt; the bound check in
scheduleReconnect never cancels the running timer, so automatic attempts
continue past the maximum. -/
theorem reconnect_attempts_exceed_max_bug :
    ((runTrace ⟨2000, 2, 100⟩ ClientType.extension
        [Event.evConnect true, Event.evClose, Event.evTick true, Event.evClose,
         Event.evTick true, Event.evClose] initState).1.reconnectAttempts = 2 ∧
     (runTrace ⟨2000, 2, 100⟩ ClientType.extension
        [Event.evConnect true, Event.evClose, Event.evTick true, Event.evClose,
         Event.evTick true, Event.evClose] initState).1.reconnectTimer = true ∧
     (runTrace ⟨2000, 2, 100⟩ ClientType.extension
        [Event.evConnect true, Event.evClose, Event.evTick true, Event.evClose,
         Event.evTick true, Event.evClose] initState).1.isConnected = false) ∧
    ((step ⟨2000, 2, 100⟩ ClientType.extension (Event.evTick true)
        (runTrace ⟨2000, 2, 100⟩ ClientType.extension
          [Event.evConnect true, Event.evClose, Event.evTick true, Event.evClose,
           Event.evTick true, Event.evClose] initState).1).1.reconnectAttempts = 3 ∧
     (step ⟨2000, 2, 100⟩ ClientType.extension (Event.evTick true)
        (runTrace ⟨2000, 2, 100⟩ ClientType.extension
          [Event.evConnect true, Event.evClose, Event.evTick true, Event.evClose,
           Event.evTick true, Event.evClose] initState).1).1.reconnectTimer = true ∧
     Eff.connAttempt ∈
       (step ⟨2000, 2, 100⟩ ClientType.extension (Event.evTick true)
          (runTrace ⟨2000, 2, 100⟩ ClientType.extension
            [Event.evConnect true, Event.evClose, Event.evTick true, Event.evClose,
             Event.evTick true, Event.evClose] initState).1).2) := by
  decide

/-- Claim C3 (corrected): `disconnect` stops the reconnect timer, resets the
attempt counter, marks the client disconnected and drops the socket, but
leaves both the pending-request table and the outbound queue unchanged and
settles nothing; pending requests are rejected with a Connection lost error
only by `clearQueue`, which also empties the table. -/
theorem disconnect_leaves_pending (s : ClientState) :
    (disconnect s).1.pendingRequests = s.pendingRequests ∧
    (disconnect s).1.messageQueue = s.messageQueue ∧
    (disconnect s).1.reconnectTimer = false ∧
    (disconnect s).1.isConnected = false ∧
    (disconnect s).1.reconnectAttempts = 0 ∧
    (disconnect s).1.ws = none ∧
    (∀ i, settleCount i (disconnect s).2 = 0) ∧
    (clearQueue s).1.pendingRequests = [] ∧
    (∀ i ∈ s.pendingRequests,
      Eff.rejectReq i "Connection lost" ∈ (clearQueue s).2) := by
  refine ⟨rfl, rfl, rfl, rfl, rfl, rfl, fun i => (disconnect_inert i s).2.2.2, rfl, ?_⟩
  intro i hmem
  show Eff.rejectReq i "Connection lost" ∈ s.pendingRequests.flatMap _
  rw [List.mem_flatMap]
  exact ⟨i, hmem, by simp⟩

/-- Witness for the corrected claim C3 at a concrete client state. -/
theorem disconnect_leaves_pending_witness :
    (disconnect ⟨none, false, false, 0, [], [5], 6⟩).1.pendingRequests = [5] ∧
    Eff.rejectReq 5 "Connection lost" ∈ (clearQueue ⟨none, false, false, 0, [], [5], 6⟩).2 := by
  have h := disconnect_leaves_pending ⟨none, false, false, 0, [], [5], 6⟩
  exact ⟨h.1, h.2.2.2.2.2.2.2.2 5 (by decide)⟩

/-- Counterexample to claim C3 as stated: in a reachable state with one
pending request, `disconnect` leaves the request pending and rejects
nothing. -/
theorem disconnect_no_reject_cex :
    (runTrace defaultBridgeConfig ClientType.mcpServer
       [Event.evConnect true, Event.evOpen (fun _ => true),
        Event.evSendRequest true "navigate" none 1000] initState).1.pendingRequests = [0] ∧
    (disconnect (runTrace defaultBridgeConfig ClientType.mcpServer
       [Event.evConnect true, Event.evOpen (fun _ => true),
        Event.evSendRequest true "navigate" none 1000] initState).1).1.pendingRequests = [0] ∧
    List.filter (settlesReq 0) (disconnect (runTrace defaultBridgeConfig ClientType.mcpServer
       [Event.evConnect true, Event.evOpen (fun _ => true),
        Event.evSendRequest true "navigate" none 1000] initState).1).2 = [] := by
  refine ⟨by decide, by decide, by decide⟩

/-- Claim C4: a pending request is settled at most once over any event
trace; it is settled exactly once as soon as the trace contains a settler
for it (a response carrying its id, its timeout firing, or a clearQueue);
and a response envelope whose id is not pending leaves the client state
unchanged, produces no effects, and returns normally. -/
theorem pending_settled_exactly_once
    (cfg : BridgeConfig) (ct : ClientType) (s : ClientState) (i : Nat) (es : List Event)
    (hreach : Reachable cfg ct s) (hmem : i ∈ s.pendingRequests) :
    settleCount i (runTrace cfg ct es s).2 ≤ 1 ∧
    ((∃ e ∈ es, isSettlerEvent i e = true) →
      settleCount i (runTrace cfg ct es s).2 = 1) ∧
    (∀ (m : BridgeMessage) (j : Nat), m.type = MsgType.response → m.id = some j →
      j ∉ s.pendingRequests → handleMessage s m = (s, [])) := by
  have hInv := reachable_inv cfg ct hreach
  obtain ⟨h1, h2⟩ := trace_mem cfg ct i es s hInv hmem
  refine ⟨h1, h2, ?_⟩
  intro m j hty hid hnm
  rw [handleMessage_resp s m j hty hid]
  exact handleRespId_nomem s m j hnm

/-- Witness for claim C4: a concrete reachable state with request 0 pending,
settled exactly once by its timeout. -/
theorem pending_settled_exactly_once_witness :
    settleCount 0 (runTrace defaultBridgeConfig ClientType.mcpServer [Event.evTimeout 0]
      (runTrace defaultBridgeConfig ClientType.mcpServer
        [Event.evConnect true, Event.evOpen (fun _ => true),
         Event.evSendRequest true "navigate" none 1000] initState).1).2 = 1 :=
  (pending_settled_exactly_once defaultBridgeConfig ClientType.mcpServer _ 0 _
    (reachable_runTrace _ _ _ _ Reachable.init) (by decide)).2.1
    ⟨Event.evTimeout 0, List.Mem.head _, by decide⟩

/-- Claim C6 (amended, limit at least 1): a failed delivery into a queue at
or above the limit evicts the oldest entry before appending, and in every
reachable state the queue length never exceeds the limit. -/
theorem queue_bounded (cfg : BridgeConfig) (ct : ClientType)
    (hlim : 1 ≤ cfg.messageQueueLimit) :
    (∀ (ok : Bool) (s : ClientState) (m : BridgeMessage),
      (safeSend ok s m).1 = false →
      cfg.messageQueueLimit ≤ s.messageQueue.length →
      (sendMessage ok cfg s m).1.messageQueue = s.messageQueue.tail ++ [m]) ∧
    (∀ s : ClientState, Reachable cfg ct s →
      s.messageQueue.length ≤ cfg.messageQueueLimit) := by
  constructor
  · intro ok s m hfail hfull
    rw [sendMessage_state, hfail]
    simp only [Bool.false_eq_true, if_false]
    simp [hfull]
  · intro s h
    exact reachable_queueBound cfg ct hlim h

/-- Witness for the amended claim C6 at limit 1. -/
theorem queue_bounded_witness :
    (sendMessage true ⟨2000, 10, 1⟩
        ⟨none, false, false, 0, [mkMsg MsgType.hello], [], 0⟩
        (mkMsg MsgType.tool_call)).1.messageQueue = [mkMsg MsgType.tool_call] ∧
    initState.messageQueue.length ≤ 1 := by
  constructor
  · have h := (queue_bounded ⟨2000, 10, 1⟩ ClientType.mcpServer (by decide)).1 true
      ⟨none, false, false, 0, [mkMsg MsgType.hello], [], 0⟩ (mkMsg MsgType.tool_call)
      (by decide) (by decide)
    rw [h]
    decide
  · exact (queue_bounded ⟨2000, 10, 1⟩ ClientType.mcpServer (by decide)).2 initState
      Reachable.init

/-- Counterexample to claim C6 as stated: with messageQueueLimit configured
to 0, one enqueue from the initial state yields a reachable state whose
queue length 1 exceeds the limit. -/
theorem queue_limit_zero_cex :
    Reachable ⟨2000, 10, 0⟩ ClientType.mcpServer
      (step ⟨2000, 10, 0⟩ ClientType.mcpServer
        (Event.evSendMessage true (mkMsg MsgType.hello)) initState).1 ∧
    (step ⟨2000, 10, 0⟩ ClientType.mcpServer
      (Event.evSendMessage true (mkMsg MsgType.hello)) initState).1.messageQueue.length = 1 :=
  ⟨Reachable.next _ Reachable.init, by decide⟩

/-- Claim C7: a queue flush transmits a prefix of the queued envelopes in
exactly their enqueue order and leaves the untransmitted suffix queued with
the failed entry at its front; on a successful open handshake, handleOpen
sends the hello envelope and then flushes the queue the same way. -/
theorem flush_fifo (s : ClientState) (oracle : Nat → Bool) (k0 : Nat)
    (cfg : BridgeConfig) (ct : ClientType) :
    (∃ n, sentOf (flushMessageQueue oracle k0 s).2 = s.messageQueue.take n ∧
      (flushMessageQueue oracle k0 s).1.messageQueue = s.messageQueue.drop n) ∧
    (oracle 0 = true → s.ws = some WsReady.opened →
      ∃ n, sentOf (handleOpen oracle cfg ct s).2 =
          helloMsg ct :: s.messageQueue.take n ∧
        (handleOpen oracle cfg ct s).1.messageQueue = s.messageQueue.drop n) := by
  constructor
  · obtain ⟨n, h1, h2⟩ := flushGo_spec s oracle s.messageQueue k0
    exact ⟨n, h2, h1⟩
  · intro ho hws
    have hsafe : safeSend (oracle 0)
        { s with isConnected := true, reconnectAttempts := 0 } (helloMsg ct) =
        (true, [Eff.send (helloMsg ct)]) := by
      simp [safeSend, hws, wsIsOpen, ho]
    have hsm : sendMessage (oracle 0) cfg
        { s with isConnected := true, reconnectAttempts := 0 } (helloMsg ct) =
        ({ s with isConnected := true, reconnectAttempts := 0 },
         [Eff.send (helloMsg ct)]) := by
      simp [sendMessage, hsafe]
    obtain ⟨n, h1, h2⟩ := flushGo_spec
      { s with isConnected := true, reconnectAttempts := 0 } oracle s.messageQueue 1
    refine ⟨n, ?_, ?_⟩
    · show sentOf ((sendMessage (oracle 0) cfg
          { s with isConnected := true, reconnectAttempts := 0 } (helloMsg ct)).2 ++
        (flushMessageQueue oracle 1 (sendMessage (oracle 0) cfg
          { s with isConnected := true, reconnectAttempts := 0 } (helloMsg ct)).1).2 ++
        [Eff.connectedCb]) = helloMsg ct :: s.messageQueue.take n
      rw [hsm, sentOf_append, sentOf_append]
      show [helloMsg ct] ++ sentOf (flushGo
          { s with isConnected := true, reconnectAttempts := 0 } oracle 1 s.messageQueue).2
          ++ [] = helloMsg ct :: s.messageQueue.take n
      rw [h2]
      simp
    · show (flushMessageQueue oracle 1 (sendMessage (oracle 0) cfg
          { s with isConnected := true, reconnectAttempts := 0 } (helloMsg ct)).1).1.messageQueue
        = s.messageQueue.drop n
      rw [hsm]
      show (flushGo { s with isConnected := true, reconnectAttempts := 0 }
          oracle 1 s.messageQueue).1 = s.messageQueue.drop n
      exact h1

/-- Witness for claim C7: two queued envelopes, hello and the first flush
send succeed, the second flush send fails. -/
theorem flush_fifo_witness :
    ∃ n, sentOf (handleOpen (fun k => k < 2) defaultBridgeConfig ClientType.extension
        ⟨some WsReady.opened, false, true, 0,
         [mkMsg MsgType.tool_call, mkMsg MsgType.response], [], 0⟩).2 =
      helloMsg ClientType.extension ::
        List.take n [mkMsg MsgType.tool_call, mkMsg MsgType.response] ∧
    (handleOpen (fun k => k < 2) defaultBridgeConfig ClientType.extension
        ⟨some WsReady.opened, false, true, 0,
         [mkMsg MsgType.tool_call, mkMsg MsgType.response], [], 0⟩).1.messageQueue =
      List.drop n [mkMsg MsgType.tool_call, mkMsg MsgType.response] :=
  (flush_fifo ⟨some WsReady.opened, false, true, 0,
      [mkMsg MsgType.tool_call, mkMsg MsgType.response], [], 0⟩
    (fun k => k < 2) 0 defaultBridgeConfig ClientType.extension).2 (by decide) rfl

/-- Claim C10: `clearQueue` empties the outbound queue and the pending
table; every previously pending request has its timeout cancelled and is
rejected with a Connection lost error, exactly once. -/
theorem clearQueue_drains_and_rejects (cfg : BridgeConfig) (ct : ClientType) (s : ClientState)
    (hreach : Reachable cfg ct s) :
    (clearQueue s).1.messageQueue = [] ∧
    (clearQueue s).1.pendingRequests = [] ∧
    ∀ i ∈ s.pendingRequests,
      Eff.cancelTimeout i ∈ (clearQueue s).2 ∧
      Eff.rejectReq i "Connection lost" ∈ (clearQueue s).2 ∧
      settleCount i (clearQueue s).2 = 1 := by
  have hInv := reachable_inv cfg ct hreach
  refine ⟨rfl, rfl, ?_⟩
  intro i hmem
  refine ⟨?_, ?_, ?_⟩
  · show Eff.cancelTimeout i ∈ s.pendingRequests.flatMap _
    rw [List.mem_flatMap]
    exact ⟨i, hmem, by simp⟩
  · show Eff.rejectReq i "Connection lost" ∈ s.pendingRequests.flatMap _
    rw [List.mem_flatMap]
    exact ⟨i, hmem, by simp⟩
  · rw [(clearQueue_spec s).2.2.2, settleCount_rejectAll _ i _ hInv.1]
    simp [hmem]

/-- Witness for claim C10 at a concrete reachable state with one pending
request. -/
theorem clearQueue_drains_and_rejects_witness :
    Eff.rejectReq 0 "Connection lost" ∈
      (clearQueue (runTrace defaultBridgeConfig ClientType.mcpServer
        [Event.evConnect true, Event.evOpen (fun _ => true),
         Event.evSendRequest true "navigate" none 1000] initState).1).2 :=
  ((clearQueue_drains_and_rejects defaultBridgeConfig ClientType.mcpServer _
      (reachable_runTrace _ _ _ _ Reachable.init)).2.2 0 (by decide)).2.1

end McpBridge

namespace Relay

open McpBridge

/-- Claim C9: a tool_call envelope received from the registered mcp-server
connection is forwarded to exactly the extension connections whose socket
readyState is OPEN; when none is open only a log effect is produced and
the envelope is dropped; no effect is ever sent back toward the sender or
anywhere outside the extension set. -/
theorem relay_broadcast (st : RelayState) (ws : Conn) (role : Option RRole) (m : BridgeMessage)
    (hrole : role = some RRole.mcpServer) (hty : m.type = MsgType.tool_call) :
    (onRelayMessage st ws role m).1 = st ∧
    (onRelayMessage st ws role m).2.1 = role ∧
    (onRelayMessage st ws role m).2.2 =
      REff.logForward ::
        (st.extensionClients.filter (fun c => c.readyState = 1)).map
          (fun c => REff.sendTo c m) ++
        (if (st.extensionClients.filter (fun c => c.readyState = 1)).isEmpty
         then [REff.logNoExecutor] else []) ∧
    (∀ (c : Conn) (m2 : BridgeMessage),
      REff.sendTo c m2 ∈ (onRelayMessage st ws role m).2.2 →
      c ∈ st.extensionClients ∧ c.readyState = 1 ∧ m2 = m) := by
  have h1 : ¬(m.type = MsgType.hello ∧ m.client = some ClientType.extension) := by
    simp [hty]
  have h2 : ¬(m.type = MsgType.hello ∧ m.client = some ClientType.mcpServer) := by
    simp [hty]
  have h3 : m.type = MsgType.tool_call ∧ role = some RRole.mcpServer := ⟨hty, hrole⟩
  have heq : onRelayMessage st ws role m =
      (st, role,
       REff.logForward ::
         (st.extensionClients.filter (fun c => c.readyState = 1)).map
           (fun c => REff.sendTo c m) ++
         (if (st.extensionClients.filter (fun c => c.readyState = 1)).isEmpty
          then [REff.logNoExecutor] else [])) := by
    simp only [onRelayMessage, if_neg h1, if_neg h2, if_pos h3]
  refine ⟨by rw [heq], by rw [heq], by rw [heq], ?_⟩
  intro c m2 hmem
  rw [heq] at hmem
  simp only at hmem
  rcases List.mem_cons.mp hmem with hbad | hmem2
  · exact absurd hbad (by simp)
  · rcases List.mem_append.mp hmem2 with hmap | hif
    · obtain ⟨c2, hc2, heq2⟩ := List.mem_map.mp hmap
      have hfc := List.mem_filter.mp hc2
      cases heq2
      exact ⟨hfc.1, by simpa using hfc.2, rfl⟩
    · split at hif
      · simp at hif
      · simp at hif

/-- Witness for claim C9: two extension connections, one open and one
closed; the broadcast reaches exactly the open one. -/
theorem relay_broadcast_witness :
    (onRelayMessage ⟨[⟨1, 1⟩, ⟨2, 3⟩], none⟩ ⟨9, 1⟩ (some RRole.mcpServer)
        (mkMsg MsgType.tool_call)).2.2 =
      [REff.logForward, REff.sendTo ⟨1, 1⟩ (mkMsg MsgType.tool_call)] := by
  rw [(relay_broadcast ⟨[⟨1, 1⟩, ⟨2, 3⟩], none⟩ ⟨9, 1⟩ (some RRole.mcpServer)
      (mkMsg MsgType.tool_call) rfl rfl).2.2.1]
  decide

end Relay

namespace Sched

theorem lookup_cons_pair (a b t : Nat) (l : List (Nat × Nat)) :
    ((a, b) :: l).lookup t = if t = a then some b else l.lookup t := by
  by_cases h : t = a
  · subst h
    simp [List.lookup]
  · have hb : (t == a) = false := by simpa using h
    simp [List.lookup, h, hb]

theorem lookup_replace_self (t c : Nat) :
    ∀ (m : List (Nat × Nat)), (m.lookup t).isSome →
      (m.map (fun p => if p.1 = t then (t, c) else p)).lookup t = some c
  | [], h => by simp at h
  | (a, b) :: rest, h => by
    by_cases hp : t = a
    · subst hp
      simp [List.map_cons, lookup_cons_pair]
    · rw [lookup_cons_pair, if_neg hp] at h
      rw [List.map_cons]
      have he : (if (a, b).1 = t then (t, c) else (a, b)) = (a, b) := by
        have ha : a ≠ t := fun hh => hp hh.symm
        simp [ha]
      rw [he, lookup_cons_pair, if_neg hp]
      exact lookup_replace_self t c rest h

theorem lookup_replace_ne (t c t2 : Nat) (h : t2 ≠ t) :
    ∀ (m : List (Nat × Nat)),
      (m.map (fun p => if p.1 = t then (t, c) else p)).lookup t2 = m.lookup t2
  | [] => rfl
  | (a, b) :: rest => by
    by_cases hp : a = t
    · subst hp
      have he : (if (a, b).1 = a then (a, c) else (a, b)) = (a, c) := by simp
      rw [List.map_cons, he, lookup_cons_pair, lookup_cons_pair, if_neg h, if_neg h]
      exact lookup_replace_ne a c t2 h rest
    · have he : (if (a, b).1 = t then (t, c) else (a, b)) = (a, b) := by simp [hp]
      rw [List.map_cons, he, lookup_cons_pair, lookup_cons_pair]
      by_cases h2 : t2 = a
      · simp [h2]
      · rw [if_neg h2, if_neg h2]
        exact lookup_replace_ne t c t2 h rest

theorem lookup_append_single_self (t c : Nat) :
    ∀ (m : List (Nat × Nat)), m.lookup t = none → (m ++ [(t, c)]).lookup t = some c
  | [], _ => by simp [lookup_cons_pair]
  | (a, b) :: rest, h => by
    rw [lookup_cons_pair] at h
    by_cases hp : t = a
    · rw [if_pos hp] at h
      simp at h
    · rw [if_neg hp] at h
      rw [List.cons_append, lookup_cons_pair, if_neg hp]
      exact lookup_append_single_self t c rest h

theorem lookup_append_single_ne (t c t2 : Nat) (h : t2 ≠ t) :
    ∀ (m : List (Nat × Nat)), (m ++ [(t, c)]).lookup t2 = m.lookup t2
  | [] => by simp [lookup_cons_pair, h]
  | (a, b) :: rest => by
    rw [List.cons_append, lookup_cons_pair, lookup_cons_pair]
    by_cases h2 : t2 = a
    · simp [h2]
    · rw [if_neg h2, if_neg h2]
      exact lookup_append_single_ne t c t2 h rest

theorem mapCount_setTab_self (m : List (Nat × Nat)) (t c : Nat) :
    mapCount (setTab m t c) t = c := by
  unfold mapCount setTab
  split_ifs with h
  · rw [lookup_replace_self t c m h]
    rfl
  · rw [lookup_append_single_self t c m (Option.not_isSome_iff_eq_none.mp h)]
    rfl

theorem mapCount_setTab_ne (m : List (Nat × Nat)) (t c t2 : Nat) (h : t2 ≠ t) :
    mapCount (setTab m t c) t2 = mapCount m t2 := by
  unfold mapCount setTab
  split_ifs
  · rw [lookup_replace_ne t c t2 h m]
  · rw [lookup_append_single_ne t c t2 h m]

theorem lookup_delTab (t t2 : Nat) :
    ∀ (m : List (Nat × Nat)),
      (delTab m t).lookup t2 = if t2 = t then none else m.lookup t2 := by
  intro m
  induction m with
  | nil => by_cases h : t2 = t <;> simp [delTab, List.lookup, h]
  | cons p rest ih =>
    obtain ⟨a, b⟩ := p
    show (((a, b) :: rest).filter (fun p => decide (p.1 ≠ t))).lookup t2 = _
    rw [List.filter_cons]
    by_cases hp : a = t
    · have hd : (decide ((a, b).1 ≠ t)) = false := by simp [hp]
      rw [hd]
      simp only [Bool.false_eq_true, if_false]
      rw [show List.filter (fun p => decide (p.1 ≠ t)) rest = delTab rest t from rfl, ih]
      by_cases h2 : t2 = t
      · simp [h2]
      · rw [if_neg h2, if_neg h2, lookup_cons_pair, if_neg (fun hh => h2 (hh.trans hp))]
    · have hd : (decide ((a, b).1 ≠ t)) = true := by simp [hp]
      rw [hd]
      simp only [if_true]
      rw [lookup_cons_pair,
        show List.filter (fun p => decide (p.1 ≠ t)) rest = delTab rest t from rfl, ih,
        lookup_cons_pair]
      by_cases h3 : t2 = t
      · have hna : t2 ≠ a := fun hh => hp (hh.symm.trans h3)
        have hta : ¬ t = a := fun hh => hna (h3.trans hh)
        simp [h3, hta]
      · simp [h3]

theorem mapCount_delTab_self (m : List (Nat × Nat)) (t : Nat) :
    mapCount (delTab m t) t = 0 := by
  unfold mapCount
  rw [lookup_delTab t t m]
  simp

theorem mapCount_delTab_ne (m : List (Nat × Nat)) (t t2 : Nat) (h : t2 ≠ t) :
    mapCount (delTab m t) t2 = mapCount m t2 := by
  unfold mapCount
  rw [lookup_delTab t t2 m, if_neg h]

theorem cnt_cons (x : QueuedTask) (l : List QueuedTask) (t : Nat) :
    cnt (x :: l) t = (if x.tabId = some t then 1 else 0) + cnt l t := by
  by_cases h : x.tabId = some t
  · simp [cnt, List.filter_cons, h, Nat.add_comm]
  · simp [cnt, List.filter_cons, h]

theorem cnt_append_single (l : List QueuedTask) (x : QueuedTask) (t : Nat) :
    cnt (l ++ [x]) t = cnt l t + (if x.tabId = some t then 1 else 0) := by
  by_cases h : x.tabId = some t
  · simp [cnt, List.filter_append, List.filter_cons, h]
  · simp [cnt, List.filter_append, List.filter_cons, h]

theorem cnt_perm (l1 l2 : List QueuedTask) (h : List.Perm l1 l2) (t : Nat) :
    cnt l1 t = cnt l2 t :=
  (h.filter _).length_eq

theorem canRun_global (cfg : ConcurrencyConfig) (running : List QueuedTask)
    (perTab : List (Nat × Nat)) (task : QueuedTask)
    (h : canRun cfg running perTab task = true) :
    running.length < cfg.maxGlobal := by
  unfold canRun at h
  split_ifs at h with h1
  omega

theorem canRun_tab (cfg : ConcurrencyConfig) (running : List QueuedTask)
    (perTab : List (Nat × Nat)) (task : QueuedTask) (t : Nat)
    (h : canRun cfg running perTab task = true) (ht : task.tabId = some t) :
    mapCount perTab t < cfg.maxPerTab := by
  unfold canRun at h
  split_ifs at h with h1
  simp only [ht] at h
  split_ifs at h with h2
  omega

theorem processGo_cons_pos (cfg : ConcurrencyConfig) (t : QueuedTask)
    (rest running : List QueuedTask) (perTab : List (Nat × Nat))
    (h : canRun cfg running perTab t = true) :
    processGo cfg (t :: rest) running perTab =
      ((processGo cfg rest (running ++ [t]) (bumpTab perTab t.tabId)).1,
       (processGo cfg rest (running ++ [t]) (bumpTab perTab t.tabId)).2.1,
       (processGo cfg rest (running ++ [t]) (bumpTab perTab t.tabId)).2.2.1,
       t :: (processGo cfg rest (running ++ [t]) (bumpTab perTab t.tabId)).2.2.2) := by
  simp [processGo, h]

theorem processGo_cons_neg (cfg : ConcurrencyConfig) (t : QueuedTask)
    (rest running : List QueuedTask) (perTab : List (Nat × Nat))
    (h : canRun cfg running perTab t = false) :
    processGo cfg (t :: rest) running perTab = (t :: rest, running, perTab, []) := by
  simp [processGo, h]

theorem processGo_split (cfg : ConcurrencyConfig) :
    ∀ (q running : List QueuedTask) (perTab : List (Nat × Nat)), ∃ n,
      (processGo cfg q running perTab).1 = q.drop n ∧
      (processGo cfg q running perTab).2.2.2 = q.take n ∧
      (processGo cfg q running perTab).2.1 = running ++ q.take n
  | [], r, p => ⟨0, rfl, rfl, by simp [processGo]⟩
  | t :: rest, r, p => by
    cases h : canRun cfg r p t with
    | true =>
      obtain ⟨n, h1, h2, h3⟩ := processGo_split cfg rest (r ++ [t]) (bumpTab p t.tabId)
      rw [processGo_cons_pos cfg t rest r p h]
      refine ⟨n + 1, by simpa using h1, by simpa using h2, ?_⟩
      simp only [List.take_succ_cons]
      rw [h3]
      simp
    | false =>
      rw [processGo_cons_neg cfg t rest r p h]
      exact ⟨0, rfl, rfl, by simp⟩

theorem processGo_caps (cfg : ConcurrencyConfig) :
    ∀ (q running : List QueuedTask) (perTab : List (Nat × Nat)),
      (∀ t, mapCount perTab t = cnt running t) →
      running.length ≤ cfg.maxGlobal →
      (∀ t, cnt running t ≤ cfg.maxPerTab) →
      (∀ t, mapCount (processGo cfg q running perTab).2.2.1 t =
          cnt (processGo cfg q running perTab).2.1 t) ∧
      (processGo cfg q running perTab).2.1.length ≤ cfg.maxGlobal ∧
      (∀ t, cnt (processGo cfg q running perTab).2.1 t ≤ cfg.maxPerTab)
  | [], r, p, hc, hg, ht => ⟨hc, hg, ht⟩
  | tk :: rest, r, p, hc, hg, ht => by
    cases h : canRun cfg r p tk with
    | false =>
      rw [processGo_cons_neg cfg tk rest r p h]
      exact ⟨hc, hg, ht⟩
    | true =>
      rw [processGo_cons_pos cfg tk rest r p h]
      refine processGo_caps cfg rest (r ++ [tk]) (bumpTab p tk.tabId) ?_ ?_ ?_
      · intro t
        cases htab : tk.tabId with
        | none =>
          rw [cnt_append_single]
          simp [bumpTab, htab, hc t]
        | some tb =>
          by_cases hteq : t = tb
          · subst hteq
            rw [cnt_append_single]
            simp only [bumpTab, htab, mapCount_setTab_self, hc t]
            simp
          · rw [cnt_append_single]
            simp only [bumpTab, htab]
            rw [mapCount_setTab_ne _ _ _ _ hteq, hc t]
            have hne : ¬ tb = t := fun hh => hteq hh.symm
            simp [htab, hne]
      · have := canRun_global cfg r p tk h
        simp only [List.length_append, List.length_cons, List.length_nil]
        omega
      · intro t
        rw [cnt_append_single]
        by_cases htb : tk.tabId = some t
        · have h2 := canRun_tab cfg r p tk t h htb
          rw [hc t] at h2
          simp [htb]
          omega
        · simp [htb]
          exact ht t

end Sched

namespace Sched

theorem insertTask_perm (x : QueuedTask) :
    ∀ (l : List QueuedTask), List.Perm (insertTask x l) (x :: l)
  | [] => List.Perm.refl _
  | y :: ys => by
    unfold insertTask
    split_ifs with h
    · exact ((insertTask_perm x ys).cons y).trans (List.Perm.swap x y ys)
    · exact List.Perm.refl _

theorem sortQueue_perm (q : List QueuedTask) : List.Perm (sortQueue q) q := by
  induction q with
  | nil => exact List.Perm.refl _
  | cons a rest ih =>
    exact (insertTask_perm a (sortQueue rest)).trans (ih.cons a)

theorem taskBefore_yields (a b : QueuedTask) (h : taskBefore a b = true) : priOrder a b := by
  unfold taskBefore at h
  split_ifs at h with hp
  · exact Or.inl (of_decide_eq_true h)
  · exact Or.inr ⟨Classical.byContradiction (fun hh => hp (fun he => hh he)) |>.symm ▸ rfl, by
      exact le_of_lt (of_decide_eq_true h)⟩

theorem not_taskBefore_yields (a b : QueuedTask) (h : taskBefore b a = false) : priOrder a b := by
  unfold taskBefore at h
  split_ifs at h with hp
  · have h2 : ¬ a.priority < b.priority := of_decide_eq_false h
    have hne : b.priority ≠ a.priority := hp
    exact Or.inl (lt_of_le_of_ne (le_of_not_lt h2) hne)
  · have h2 : ¬ b.enqueuedAt < a.enqueuedAt := of_decide_eq_false h
    have he : b.priority = a.priority := not_not.mp (fun hh => hp hh)
    exact Or.inr ⟨he.symm, le_of_not_lt h2⟩

theorem priOrder_trans (a b c : QueuedTask) (h1 : priOrder a b) (h2 : priOrder b c) :
    priOrder a c := by
  rcases h1 with h1 | ⟨e1, l1⟩ <;> rcases h2 with h2 | ⟨e2, l2⟩
  · exact Or.inl (lt_trans h2 h1)
  · exact Or.inl (e2 ▸ h1)
  · exact Or.inl (e1 ▸ h2)
  · exact Or.inr ⟨e1.trans e2, le_trans l1 l2⟩

theorem mem_insertTask (x z : QueuedTask) (l : List QueuedTask)
    (h : z ∈ insertTask x l) : z = x ∨ z ∈ l := by
  have h2 := (insertTask_perm x l).mem_iff.mp h
  exact List.mem_cons.mp h2

theorem pairwise_insertTask (x : QueuedTask) :
    ∀ (l : List QueuedTask), List.Pairwise priOrder l →
      List.Pairwise priOrder (insertTask x l)
  | [], _ => by simp [insertTask]
  | y :: ys, h => by
    obtain ⟨hy, hys⟩ := List.pairwise_cons.mp h
    unfold insertTask
    split_ifs with hb
    · refine List.pairwise_cons.mpr ⟨?_, pairwise_insertTask x ys hys⟩
      intro z hz
      rcases mem_insertTask x z ys hz with rfl | hz2
      · exact taskBefore_yields y z hb
      · exact hy z hz2
    · refine List.pairwise_cons.mpr ⟨?_, h⟩
      intro z hz
      rcases List.mem_cons.mp hz with rfl | hz2
      · exact not_taskBefore_yields x z (by simpa using hb)
      · exact priOrder_trans x y z (not_taskBefore_yields x y (by simpa using hb)) (hy z hz2)

theorem pairwise_sortQueue (q : List QueuedTask) : List.Pairwise priOrder (sortQueue q) := by
  induction q with
  | nil => exact List.Pairwise.nil
  | cons a rest ih => exact pairwise_insertTask a (sortQueue rest) ih

theorem find?_eraseP_perm (p : QueuedTask → Bool) :
    ∀ (l : List QueuedTask) (a : QueuedTask), l.find? p = some a →
      List.Perm l (a :: l.eraseP p)
  | [], a, h => by simp at h
  | x :: xs, a, h => by
    cases hp : p x with
    | true =>
      rw [List.find?_cons_of_pos xs hp] at h
      injection h with h
      subst h
      rw [List.eraseP_cons_of_pos hp]
    | false =>
      rw [List.find?_cons_of_neg xs (by simp [hp])] at h
      rw [List.eraseP_cons_of_neg (by simp [hp])]
      exact ((find?_eraseP_perm p xs a h).cons x).trans (List.Perm.swap a x (xs.eraseP p))

theorem process_TInv (cfg : ConcurrencyConfig) (st : TaskState) (h : TInv cfg st) :
    TInv cfg (process cfg st) := by
  obtain ⟨hc, hg, ht⟩ := h
  exact processGo_caps cfg st.queue st.running st.perTabCount hc hg ht

theorem enqueueTask_TInv (cfg : ConcurrencyConfig) (st : TaskState)
    (tab : Option Nat) (prio now : Int) (h : TInv cfg st) :
    TInv cfg (enqueueTask cfg st tab prio now) := by
  apply process_TInv
  exact h

theorem settleTask_TInv (cfg : ConcurrencyConfig) (st : TaskState) (i : Nat)
    (h : TInv cfg st) : TInv cfg (settleTask cfg st i) := by
  unfold settleTask
  cases hf : st.running.find? (fun u => u.id = i) with
  | none => exact h
  | some task =>
    apply process_TInv
    obtain ⟨hc, hg, ht⟩ := h
    have hperm : List.Perm st.running
        (task :: st.running.eraseP (fun u => decide (u.id = i))) :=
      find?_eraseP_perm _ st.running task hf
    refine ⟨?_, ?_, ?_⟩
    · intro t
      show mapCount (dropTab st.perTabCount task.tabId) t =
        cnt (st.running.eraseP (fun u => decide (u.id = i))) t
      have hcnt : ∀ t2, cnt st.running t2 =
          (if task.tabId = some t2 then 1 else 0) +
            cnt (st.running.eraseP (fun u => decide (u.id = i))) t2 := by
        intro t2
        rw [cnt_perm _ _ hperm t2, cnt_cons]
      cases htab : task.tabId with
      | none =>
        show mapCount st.perTabCount t = _
        rw [hc t, hcnt t, htab]
        simp
      | some tb =>
        have hpos : cnt st.running tb =
            cnt (st.running.eraseP (fun u => decide (u.id = i))) tb + 1 := by
          rw [hcnt tb, htab]
          simp [Nat.add_comm]
        by_cases hteq : t = tb
        · subst hteq
          have hsome : st.perTabCount.lookup t = some (cnt st.running t) := by
            have h2 := hc t
            unfold mapCount at h2
            cases hl : st.perTabCount.lookup t with
            | none =>
              rw [hl] at h2
              simp at h2
              exfalso
              omega
            | some v =>
              rw [hl] at h2
              simp at h2
              rw [h2]
          show mapCount (dropTab st.perTabCount (some t)) t = _
          simp only [dropTab]
          rw [hsome]
          simp only [Option.getD_some]
          split_ifs with hle
          · rw [mapCount_delTab_self]
            omega
          · rw [mapCount_setTab_self]
            omega
        · show mapCount (dropTab st.perTabCount (some tb)) t = _
          simp only [dropTab]
          split_ifs with hle
          · rw [mapCount_delTab_ne _ _ _ hteq, hc t, hcnt t, htab]
            have : ¬ (tb = t) := fun hh => hteq hh.symm
            simp [this]
          · rw [mapCount_setTab_ne _ _ _ _ hteq, hc t, hcnt t, htab]
            have : ¬ (tb = t) := fun hh => hteq hh.symm
            simp [this]
    · have hlen := hperm.length_eq
      simp only [List.length_cons] at hlen
      show (List.eraseP (fun u => decide (u.id = i)) st.running).length ≤ cfg.maxGlobal
      omega
    · intro t
      have h2 := ht t
      rw [cnt_perm _ _ hperm t, cnt_cons] at h2
      show cnt (List.eraseP (fun u => decide (u.id = i)) st.running) t ≤ cfg.maxPerTab
      omega

theorem TInv_init (cfg : ConcurrencyConfig) : TInv cfg initT := by
  refine ⟨fun t => rfl, Nat.zero_le _, fun t => Nat.zero_le _⟩

theorem reachableT_TInv (cfg : ConcurrencyConfig) :
    ∀ {st : TaskState}, ReachableT cfg st → TInv cfg st := by
  intro st h
  induction h with
  | init => exact TInv_init cfg
  | next e h ih =>
    cases e with
    | tEnqueue tab p n => exact enqueueTask_TInv cfg _ tab p n ih
    | tSettle i => exact settleTask_TInv cfg _ i ih

/-- Claim C5: in every reachable scheduler state at most maxGlobal tasks run
concurrently, at most maxPerTab running tasks share any tab, and a task
without a tab is gated only by the global cap. -/
theorem scheduler_caps_invariant (cfg : ConcurrencyConfig) (st : TaskState)
    (h : ReachableT cfg st) :
    st.running.length ≤ cfg.maxGlobal ∧
    (∀ t, cnt st.running t ≤ cfg.maxPerTab) ∧
    (∀ (running : List QueuedTask) (perTab : List (Nat × Nat)) (task : QueuedTask),
      task.tabId = none →
      (canRun cfg running perTab task = true ↔ running.length < cfg.maxGlobal)) := by
  have hin := reachableT_TInv cfg h
  refine ⟨hin.2.1, hin.2.2, ?_⟩
  intro running perTab task htab
  unfold canRun
  rw [htab]
  split_ifs with hge
  · constructor
    · intro hh
      simp at hh
    · intro hh
      omega
  · constructor
    · intro _
      omega
    · intro _
      rfl

/-- Witness for claim C5: two submissions to the same tab under caps
maxPerTab 1, maxGlobal 2; the reachable state obeys both bounds. -/
theorem scheduler_caps_invariant_witness :
    (stepT ⟨1, 2⟩ (TEvent.tEnqueue (some 7) 0 1)
        (stepT ⟨1, 2⟩ (TEvent.tEnqueue (some 7) 0 0) initT)).running.length ≤ 2 ∧
    cnt (stepT ⟨1, 2⟩ (TEvent.tEnqueue (some 7) 0 1)
        (stepT ⟨1, 2⟩ (TEvent.tEnqueue (some 7) 0 0) initT)).running 7 ≤ 1 := by
  have h := scheduler_caps_invariant ⟨1, 2⟩ _
    (ReachableT.next (TEvent.tEnqueue (some 7) 0 1)
      (ReachableT.next (TEvent.tEnqueue (some 7) 0 0) ReachableT.init))
  exact ⟨h.1, h.2.1 7⟩

/-- Claim C8: sorting is a permutation ordered by priority (higher first)
with ties broken by earlier enqueue time, admission takes a prefix of the
sorted queue, every admitted task dominates every task left waiting, and
an ineligible head admits nothing in that pass. -/
theorem admission_priority_order (cfg : ConcurrencyConfig) (q : List QueuedTask)
    (running : List QueuedTask) (perTab : List (Nat × Nat)) :
    List.Perm (sortQueue q) q ∧
    List.Pairwise priOrder (sortQueue q) ∧
    (∃ n, (processGo cfg (sortQueue q) running perTab).2.2.2 = (sortQueue q).take n ∧
      (processGo cfg (sortQueue q) running perTab).1 = (sortQueue q).drop n) ∧
    (∀ a ∈ (processGo cfg (sortQueue q) running perTab).2.2.2,
      ∀ b ∈ (processGo cfg (sortQueue q) running perTab).1, priOrder a b) ∧
    (∀ (hd : QueuedTask) (rest : List QueuedTask), sortQueue q = hd :: rest →
      canRun cfg running perTab hd = false →
      processGo cfg (sortQueue q) running perTab = (sortQueue q, running, perTab, [])) := by
  refine ⟨sortQueue_perm q, pairwise_sortQueue q, ?_, ?_, ?_⟩
  · obtain ⟨n, h1, h2, _⟩ := processGo_split cfg (sortQueue q) running perTab
    exact ⟨n, h2, h1⟩
  · intro a ha b hb
    obtain ⟨n, h1, h2, _⟩ := processGo_split cfg (sortQueue q) running perTab
    rw [h2] at ha
    rw [h1] at hb
    have hp := pairwise_sortQueue q
    rw [← List.take_append_drop n (sortQueue q)] at hp
    exact (List.pairwise_append.mp hp).2.2 a ha b hb
  · intro hd rest heq hblock
    rw [heq]
    exact processGo_cons_neg cfg hd rest running perTab hblock

/-- Witness for claim C8: a single queued task blocked by a zero global
cap is not admitted. -/
theorem admission_priority_order_witness :
    processGo ⟨3, 0⟩ (sortQueue [⟨0, none, 5, 0⟩]) [] [] =
      (sortQueue [⟨0, none, 5, 0⟩], [], [], []) :=
  (admission_priority_order ⟨3, 0⟩ [⟨0, none, 5, 0⟩] [] []).2.2.2.2
    ⟨0, none, 5, 0⟩ [] rfl (by decide)

end Sched
